import Mathlib

/-!
Verification of the annotation-to-request synthesis engine of the
springboot-http-generator extension, as a shallow embedding in Lean 4.

The source code (HttpGenerator.ts, BodyGenerator.ts) is almost entirely
driven by JavaScript regular expressions, so this file first embeds a
small backtracking regular-expression engine whose semantics mirror the
JavaScript `RegExp.exec` behaviour on the pattern features actually used
by the program: literals, character classes, greedy and lazy star, plus,
optional groups, alternation, capture groups, and the multiline anchors.
JavaScript regex matching is leftmost-first with ordered alternation and
greedy backtracking; the continuation-passing matcher below implements
exactly that strategy.

Strings are processed as `List Char`; `String` wrappers appear at the
public boundaries.  JSON values produced by the body generator are
modelled by the inductive `Jv`; `JSON.stringify`/`JSON.parse` round-trip
such values unchanged, so the embedding passes `Jv` values where the
source passes their serialized strings.  The asynchronous file-system
environment (`vscode.workspace.findFiles` + `fs.readFile`) is modelled
by an explicit association list from file names to contents, and the
wall-clock-unbounded recursion of the body generator is modelled with an
explicit fuel parameter: a `none` result at every fuel means the source
recursion never completes on its own (only its wall-clock timeout stops
it).
-/

set_option maxHeartbeats 4000000

namespace SpringGen

/-! ## JavaScript character classes and string helpers -/

/-- JavaScript `\s` restricted to the ASCII whitespace actually occurring
in source files: space, tab, newline, carriage return, form feed,
vertical tab. -/
def jsWs (c : Char) : Bool :=
  c = ' ' || c = '\t' || c = '\n' || c = '\r' || c = '\x0c' || c = '\x0b'

/-- JavaScript `\w`: ASCII letters, digits and underscore. -/
def jsWord (c : Char) : Bool :=
  ('a' ≤ c && c ≤ 'z') || ('A' ≤ c && c ≤ 'Z') || ('0' ≤ c && c ≤ '9') || c = '_'

/-- JavaScript `\d`. -/
def jsDigit (c : Char) : Bool := '0' ≤ c && c ≤ '9'

/-- ASCII upper-casing, as `String.prototype.toUpperCase` acts on the
ASCII strings this program manipulates. -/
def jsUpperChar (c : Char) : Char :=
  if 'a' ≤ c && c ≤ 'z' then Char.ofNat (c.toNat - 32) else c

def jsUpper (s : List Char) : List Char := s.map jsUpperChar

/-- ASCII lower-casing (`String.prototype.toLowerCase`). -/
def jsLowerChar (c : Char) : Char :=
  if 'A' ≤ c && c ≤ 'Z' then Char.ofNat (c.toNat + 32) else c

def jsLower (s : List Char) : List Char := s.map jsLowerChar

/-- `String.prototype.trim`: strip leading and trailing whitespace. -/
def jsTrim (s : List Char) : List Char :=
  ((s.dropWhile jsWs).reverse.dropWhile jsWs).reverse

/-- Substring test (`String.prototype.includes`). -/
def isSubseqAt : List Char → List Char → Bool
  | [], _ => true
  | _ :: _, [] => false
  | a :: as, b :: bs => a = b && isSubseqAt as bs

/-- `String.prototype.includes`: the needle occurs at some position. -/
def jsIncludes (hay needle : List Char) : Bool :=
  if isSubseqAt needle hay then true
  else
    match hay with
    | [] => false
    | _ :: rest => jsIncludes rest needle

def jsStartsWith (s pre : List Char) : Bool := isSubseqAt pre s

def jsEndsWith (s suf : List Char) : Bool := isSubseqAt suf.reverse s.reverse

/-- `parseInt(s, 10)` on a string of decimal digits. -/
def digitsToNat (s : List Char) : Nat :=
  s.foldl (fun acc c => acc * 10 + (c.toNat - '0'.toNat)) 0

/-! ## A JavaScript-style backtracking regular-expression engine

`RE` covers exactly the features used by the program's patterns.  The
matcher threads the previous character (for the multiline `^`/`$`
anchors) and an association list of capture groups, and explores
alternatives in the JavaScript order: alternation left to right, greedy
quantifiers longest-first, lazy quantifiers shortest-first, leftmost
starting position first. -/

inductive RE where
  /-- matches the empty string -/
  | eps : RE
  /-- a literal character sequence -/
  | lit : List Char → RE
  /-- a case-insensitive literal (for patterns compiled with the `i` flag) -/
  | litCI : List Char → RE
  /-- a single character from a class -/
  | cls : (Char → Bool) → RE
  /-- greedy `[class]*` -/
  | star : (Char → Bool) → RE
  /-- lazy `[class]*?` -/
  | starL : (Char → Bool) → RE
  /-- greedy `[class]+` -/
  | plus : (Char → Bool) → RE
  /-- greedy `(...)?` -/
  | opt : RE → RE
  /-- ordered alternation -/
  | alt : RE → RE → RE
  /-- concatenation -/
  | seq : RE → RE → RE
  /-- numbered capture group -/
  | grp : Nat → RE → RE
  /-- `^` with the `m` flag: start of input or just after a newline -/
  | bolm : RE
  /-- `$` with the `m` flag: end of input or just before a newline -/
  | eolm : RE
  /-- `$` without flags: end of input -/
  | eos : RE

/-- Capture-group assignments: group index paired with captured text.
Lookup takes the most recent assignment (head of the list). -/
abbrev Caps := List (Nat × List Char)

def capGet (caps : Caps) (i : Nat) : Option (List Char) :=
  (caps.find? fun p => p.1 = i).map Prod.snd

/-- Suffix positions reachable by consuming characters of class `p`,
longest consumption first (greedy order).  Each position carries the
character immediately preceding it. -/
def starRests (p : Char → Bool) : Option Char → List Char → List (Option Char × List Char)
  | pv, [] => [(pv, [])]
  | pv, c :: rest =>
    if p c then starRests p (some c) rest ++ [(pv, c :: rest)]
    else [(pv, c :: rest)]

/-- Same positions in lazy order: shortest consumption first. -/
def starRestsL (p : Char → Bool) : Option Char → List Char → List (Option Char × List Char)
  | pv, [] => [(pv, [])]
  | pv, c :: rest =>
    (pv, c :: rest) :: (if p c then starRestsL p (some c) rest else [])

def firstSome {α β : Type} (xs : List α) (f : α → Option β) : Option β :=
  match xs with
  | [] => none
  | x :: rest => (f x).orElse fun _ => firstSome rest f

/-- Try a literal; returns the new previous-character and suffix. -/
def litStep : List Char → Option Char → List Char → Option (Option Char × List Char)
  | [], pv, s => some (pv, s)
  | l :: ls, _, c :: cs => if l = c then litStep ls (some c) cs else none
  | _ :: _, _, [] => none

def litStepCI : List Char → Option Char → List Char → Option (Option Char × List Char)
  | [], pv, s => some (pv, s)
  | l :: ls, _, c :: cs => if jsLowerChar l = jsLowerChar c then litStepCI ls (some c) cs else none
  | _ :: _, _, [] => none

/-- The backtracking matcher in continuation-passing style.  `pv` is the
character just before the current position (`none` at the start of the
input), `s` the remaining input.  The continuation returns `none` to
force backtracking; the first overall success wins, which is exactly the
JavaScript strategy. -/
def reM {α : Type} : RE → Option Char → List Char → Caps →
    (Option Char → List Char → Caps → Option α) → Option α
  | .eps, pv, s, caps, k => k pv s caps
  | .lit l, pv, s, caps, k =>
    match litStep l pv s with
    | some (pv', s') => k pv' s' caps
    | none => none
  | .litCI l, pv, s, caps, k =>
    match litStepCI l pv s with
    | some (pv', s') => k pv' s' caps
    | none => none
  | .cls p, _, s, caps, k =>
    match s with
    | [] => none
    | c :: rest => if p c then k (some c) rest caps else none
  | .star p, pv, s, caps, k =>
    firstSome (starRests p pv s) fun pos => k pos.1 pos.2 caps
  | .starL p, pv, s, caps, k =>
    firstSome (starRestsL p pv s) fun pos => k pos.1 pos.2 caps
  | .plus p, _, s, caps, k =>
    match s with
    | [] => none
    | c :: rest =>
      if p c then firstSome (starRests p (some c) rest) fun pos => k pos.1 pos.2 caps
      else none
  | .opt r, pv, s, caps, k =>
    (reM r pv s caps k).orElse fun _ => k pv s caps
  | .alt a b, pv, s, caps, k =>
    (reM a pv s caps k).orElse fun _ => reM b pv s caps k
  | .seq a b, pv, s, caps, k =>
    reM a pv s caps fun pv' s' caps' => reM b pv' s' caps' k
  | .grp i r, pv, s, caps, k =>
    reM r pv s caps fun pv' s' caps' =>
      k pv' s' ((i, s.take (s.length - s'.length)) :: caps')
  | .bolm, pv, s, caps, k =>
    match pv with
    | none => k pv s caps
    | some c => if c = '\n' then k pv s caps else none
  | .eolm, pv, s, caps, k =>
    match s with
    | [] => k pv s caps
    | c :: _ => if c = '\n' then k pv s caps else none
  | .eos, pv, s, caps, k =>
    match s with
    | [] => k pv s caps
    | _ :: _ => none

/-- Result of `RegExp.exec`: start index, end index (exclusive), the
matched text, and the capture groups. -/
structure ExecResult where
  start : Nat
  stop : Nat
  matched : List Char
  caps : Caps
deriving DecidableEq

/-- `exec` from a given position: try each starting offset left to
right, as JavaScript does for an unanchored pattern. -/
def reExecAux (r : RE) : Option Char → List Char → Nat → Option ExecResult
  | pv, [], idx =>
    match reM r pv [] [] (fun _ s' caps => some (([] : List Char).length - s'.length, caps)) with
    | some (len, caps) => some ⟨idx, idx + len, ([] : List Char).take len, caps⟩
    | none => none
  | pv, c :: rest, idx =>
    match reM r pv (c :: rest) []
        (fun _ s' caps => some ((c :: rest).length - s'.length, caps)) with
    | some (len, caps) => some ⟨idx, idx + len, (c :: rest).take len, caps⟩
    | none => reExecAux r (some c) rest (idx + 1)

/-- `pattern.exec(text)` for a non-global pattern (leftmost match). -/
def reExec (r : RE) (s : List Char) : Option ExecResult := reExecAux r none s 0

/-- `pattern.test(text)`. -/
def reTest (r : RE) (s : List Char) : Bool := (reExec r s).isSome

/-- All matches of a global pattern, in order, mirroring the
`while ((m = re.exec(text)) !== null)` idiom: searching resumes at the
end of the previous match (one past it for an empty match).  `fuel`
bounds the iteration; `s.length + 1` always suffices. -/
def execAllAux (r : RE) : Nat → Option Char → List Char → Nat → List ExecResult
  | 0, _, _, _ => []
  | fuel + 1, pv, s, idx =>
    match reExecAux r pv s idx with
    | none => []
    | some res =>
      let consumedRel := res.stop - idx
      let skip := if res.stop = res.start then consumedRel + 1 else consumedRel
      let dropped := (res.start - idx) + skip
      let s' := s.drop dropped
      let pv' := if dropped = 0 then pv else (s.take dropped).getLast?
      res :: execAllAux r fuel pv' s' (idx + dropped)

def execAll (r : RE) (s : List Char) : List ExecResult :=
  execAllAux r (s.length + 1) none s 0

/-- Global `String.prototype.replace` with an empty-string replacement
(the only replacement the program performs globally): delete every
match. -/
def replaceAllEmpty (r : RE) (s : List Char) : List Char :=
  let ms := execAll r s
  let rec go (pos : Nat) (ms : List ExecResult) (s : List Char) : List Char :=
    match ms with
    | [] => s
    | m :: rest => (s.take (m.start - pos)) ++ go m.stop rest (s.drop (m.stop - pos))
  go 0 ms s

/-- Non-global `String.prototype.replace` with a literal (first match
only). -/
def replaceFirst (r : RE) (s repl : List Char) : List Char :=
  match reExec r s with
  | none => s
  | some m => s.take m.start ++ repl ++ s.drop m.stop

/-! ### Notation-free smart constructors to keep pattern definitions readable -/

def reseq (rs : List RE) : RE := rs.foldr RE.seq RE.eps

def wsStar : RE := RE.star jsWs
def wsPlus : RE := RE.plus jsWs

def chars (s : String) : List Char := s.data

/-- JavaScript truthiness of an optional string: `undefined` and the
empty string are falsy. -/
def jsTruthy (o : Option (List Char)) : Bool :=
  match o with
  | none => false
  | some s => s ≠ []

def notCh (a : Char) : Char → Bool := fun c => c ≠ a
def notQuote : Char → Bool := notCh '"'
def notParen : Char → Bool := notCh ')'
def notNl : Char → Bool := notCh '\n'
def notBrace : Char → Bool := notCh '\x7d'
def notAngles : Char → Bool := fun c => ¬ (c = '<' ∨ c = '>')
def notWsC : Char → Bool := fun c => ¬ jsWs c
def anyC : Char → Bool := fun _ => true
/-- the class `[\w<>\[\],\s]` used for type tokens -/
def typeC : Char → Bool := fun c =>
  jsWord c ∨ c = '<' ∨ c = '>' ∨ c = '[' ∨ c = ']' ∨ c = ',' ∨ jsWs c
/-- the class `[:=]` -/
def colonEqC : Char → Bool := fun c => c = ':' ∨ c = '='

/-- `replace(/\s+/g, ' ')`: collapse whitespace runs to single spaces. -/
def collapseWsAux : List Char → Bool → List Char
  | [], _ => []
  | c :: rest, prevWs =>
    if jsWs c then
      if prevWs then collapseWsAux rest true else ' ' :: collapseWsAux rest true
    else c :: collapseWsAux rest false

/-- Whitespace normalization performed by `extractMappingInfo`:
`text.replace(/\s+/g, ' ').trim()`. -/
def normalizeWs (s : List Char) : List Char := jsTrim (collapseWsAux s false)

/-- `String.prototype.split(',')` (keeps empty pieces). -/
def jsSplitComma : List Char → List (List Char)
  | [] => [[]]
  | c :: rest =>
    if c = ',' then [] :: jsSplitComma rest
    else
      match jsSplitComma rest with
      | [] => [[c]]
      | piece :: pieces => (c :: piece) :: pieces

/-! ## HttpGenerator: mapping extraction (claims C1, C3, C4)

The five patterns of `extractMappingInfo`, transcribed constructor by
constructor from the regular expressions in the source. -/

/-- `@(Get|Post|Put|Delete|Patch)Mapping` with the verb as group 1. -/
def verbGroup : RE :=
  RE.seq (RE.lit (chars "@"))
    (RE.seq
      (RE.grp 1 (RE.alt (RE.lit (chars "Get"))
        (RE.alt (RE.lit (chars "Post"))
          (RE.alt (RE.lit (chars "Put"))
            (RE.alt (RE.lit (chars "Delete")) (RE.lit (chars "Patch")))))))
      (RE.lit (chars "Mapping")))

/-- `/@(Get|Post|Put|Delete|Patch)Mapping\s*\(\s*(?:value\s*=\s*)?"([^"]*)"\s*\)/` -/
def mapPat1 : RE := reseq [
  verbGroup, wsStar, RE.lit (chars "("), wsStar,
  RE.opt (reseq [RE.lit (chars "value"), wsStar, RE.lit (chars "="), wsStar]),
  RE.lit (chars "\""), RE.grp 2 (RE.star notQuote), RE.lit (chars "\""),
  wsStar, RE.lit (chars ")")]

/-- `/@RequestMapping\s*\([^)]*method\s*=\s*RequestMethod\.(\w+)[^)]*,?\s*(?:path|value)\s*=\s*"([^"]*)"[^)]*\)/` -/
def mapPat2 : RE := reseq [
  RE.lit (chars "@RequestMapping"), wsStar, RE.lit (chars "("),
  RE.star notParen,
  RE.lit (chars "method"), wsStar, RE.lit (chars "="), wsStar,
  RE.lit (chars "RequestMethod."), RE.grp 1 (RE.plus jsWord),
  RE.star notParen, RE.opt (RE.lit (chars ",")), wsStar,
  RE.alt (RE.lit (chars "path")) (RE.lit (chars "value")),
  wsStar, RE.lit (chars "="), wsStar,
  RE.lit (chars "\""), RE.grp 2 (RE.star notQuote), RE.lit (chars "\""),
  RE.star notParen, RE.lit (chars ")")]

/-- `/@RequestMapping\s*\([^)]*(?:path|value)\s*=\s*"([^"]*)"[^)]*,?\s*method\s*=\s*RequestMethod\.(\w+)[^)]*\)/` -/
def mapPat3 : RE := reseq [
  RE.lit (chars "@RequestMapping"), wsStar, RE.lit (chars "("),
  RE.star notParen,
  RE.alt (RE.lit (chars "path")) (RE.lit (chars "value")),
  wsStar, RE.lit (chars "="), wsStar,
  RE.lit (chars "\""), RE.grp 1 (RE.star notQuote), RE.lit (chars "\""),
  RE.star notParen, RE.opt (RE.lit (chars ",")), wsStar,
  RE.lit (chars "method"), wsStar, RE.lit (chars "="), wsStar,
  RE.lit (chars "RequestMethod."), RE.grp 2 (RE.plus jsWord),
  RE.star notParen, RE.lit (chars ")")]

/-- `/@RequestMapping\s*\(\s*"([^"]*)"\s*\)/` -/
def mapPat4 : RE := reseq [
  RE.lit (chars "@RequestMapping"), wsStar, RE.lit (chars "("), wsStar,
  RE.lit (chars "\""), RE.grp 1 (RE.star notQuote), RE.lit (chars "\""),
  wsStar, RE.lit (chars ")")]

/-- `/@(Get|Post|Put|Delete|Patch)Mapping/` -/
def mapPat5 : RE := verbGroup

def springPatterns : List RE := [mapPat1, mapPat2, mapPat3, mapPat4, mapPat5]

/-- The `for (const pattern of patterns)` loop head: the first pattern
that matches supplies the match object. -/
def tryPatterns : List RE → List Char → Option ExecResult
  | [], _ => none
  | p :: rest, text =>
    match reExec p text with
    | some m => some m
    | none => tryPatterns rest text

structure MappingMatch where
  method : List Char
  path : List Char
deriving DecidableEq

/-- `matchSpringMappingPattern` from HttpGenerator.ts.  `Except.error`
models the `TypeError` thrown by `match[...].toUpperCase()` when the
accessed group is `undefined`; it is caught by the caller.  The
branch structure follows the source: when the text mentions
`RequestMapping`, a match with two truthy groups is read as
(method, path) = (group 1, group 2) — which is what makes the
path-first pattern `mapPat3` come out swapped. -/
def matchSpringMappingPattern (normalizedText : List Char) : Except Unit (Option MappingMatch) :=
  match tryPatterns springPatterns normalizedText with
  | none => .ok none
  | some m =>
    let m1 := capGet m.caps 1
    let m2 := capGet m.caps 2
    if jsIncludes normalizedText (chars "RequestMapping") then
      if jsTruthy m1 ∧ jsTruthy m2 then
        .ok (some ⟨jsUpper (m1.getD []), m2.getD []⟩)
      else if jsTruthy m1 ∧ ¬ jsTruthy m2 then
        .ok (some ⟨chars "GET", m1.getD []⟩)
      else
        match m2 with
        | none => .error ()
        | some v2 => .ok (some ⟨jsUpper v2, m1.getD []⟩)
    else
      match m1 with
      | none => .error ()
      | some v1 => .ok (some ⟨jsUpper v1, m2.getD []⟩)

/-- `extractArrayAttribute(text, attribute)`: first a brace-delimited
comma list (case-insensitive), else a single quoted string, else
absent. -/
def extractArrayAttribute (text attrName : List Char) : Option (List String) :=
  let bracePat := reseq [
    RE.litCI attrName, wsStar, RE.lit (chars "="), wsStar,
    RE.lit (chars "\x7b"), RE.grp 1 (RE.plus notBrace), RE.lit (chars "\x7d")]
  match reExec bracePat text with
  | some m =>
    let parts := jsSplitComma (capGet m.caps 1 |>.getD [])
    let cleaned := (parts.map fun p => (jsTrim p).filter notQuote).filter fun p => p.length > 0
    some (cleaned.map fun p => (⟨p⟩ : String))
  | none =>
    let singlePat := reseq [
      RE.litCI attrName, wsStar, RE.lit (chars "="), wsStar,
      RE.lit (chars "\""), RE.grp 1 (RE.plus notQuote), RE.lit (chars "\"")]
    match reExec singlePat text with
    | some m => some [(⟨capGet m.caps 1 |>.getD []⟩ : String)]
    | none => none

structure SpringMapping where
  method : String
  path : String
  consumes : Option (List String)
  produces : Option (List String)
deriving DecidableEq

/-- `extractMappingInfo` from HttpGenerator.ts: normalize whitespace,
run the pattern cascade, and extract `consumes`/`produces`; any thrown
`TypeError` is caught and yields `undefined`. -/
def extractMappingInfo (annotationText : String) : Option SpringMapping :=
  let normalized := normalizeWs annotationText.data
  match matchSpringMappingPattern normalized with
  | .error _ => none
  | .ok none => none
  | .ok (some mm) =>
    some ⟨⟨mm.method⟩, ⟨mm.path⟩,
      extractArrayAttribute normalized (chars "consumes"),
      extractArrayAttribute normalized (chars "produces")⟩

/-! ## HttpGenerator: combinePaths (claim C5) -/

/-- `combinePaths` from HttpGenerator.ts: falsy (empty) sides pass
through; otherwise one trailing slash is stripped from the base
(`replace(/\/$/, '')`), one leading slash from the path
(`replace(/^\//, '')`), and the two are joined with a single slash. -/
def combinePathsL (basePath path : List Char) : List Char :=
  if basePath = [] then path
  else if path = [] then basePath
  else
    let cleanBase := if jsEndsWith basePath ['/'] then basePath.dropLast else basePath
    let cleanPath := if jsStartsWith path ['/'] then path.drop 1 else path
    cleanBase ++ '/' :: cleanPath

def combinePaths (basePath path : String) : String :=
  ⟨combinePathsL basePath.data path.data⟩


/-! ## BodyGenerator (claims C2, C9, C10)

JSON values are modelled by `Jv`; `JSON.stringify`/`JSON.parse`
round-trip these values unchanged, so wherever the source passes a
serialized body string the embedding passes the `Jv` value itself.
Numeric literals from the sample-value table are carried verbatim as
`numLit`.  The workspace is an association list from file base names to
file contents; `vscode.workspace.findFiles` over a `**/Name.java` glob
becomes a filter on the base name. -/

inductive Jv where
  | null : Jv
  | bool : Bool → Jv
  | numLit : String → Jv
  | str : String → Jv
  | arr : List Jv → Jv
  | obj : List (String × Jv) → Jv

/-- The `typeMapping` table of BodyGenerator.ts. -/
def typeMappingTable : List (String × Jv) := [
  ("String", .str "example"), ("Integer", .numLit "42"), ("int", .numLit "42"),
  ("Long", .numLit "123456789"), ("long", .numLit "123456789"),
  ("Double", .numLit "3.14159"), ("double", .numLit "3.14159"),
  ("Float", .numLit "2.71828"), ("float", .numLit "2.71828"),
  ("BigDecimal", .numLit "99.99"), ("Boolean", .bool true), ("boolean", .bool true),
  ("Date", .str "2024-01-15T10:30:00Z"), ("LocalDate", .str "2024-01-15"),
  ("LocalDateTime", .str "2024-01-15T10:30:00"),
  ("UUID", .str "550e8400-e29b-41d4-a716-446655440000"),
  ("Instant", .str "2024-01-15T10:30:00Z")]

/-- `this.typeMapping.hasOwnProperty(type) ? this.typeMapping[type] : ·` -/
def typeMapping (t : String) : Option Jv :=
  (typeMappingTable.find? fun e => e.1 = t).map Prod.snd

structure JavaField where
  name : String
  type : String
  isCollection : Bool
  genericType : Option String
deriving DecidableEq

/-- `/\/\*[\s\S]*?\*\//g` — block comments, lazy. -/
def blockCommentPat : RE :=
  reseq [RE.lit (chars "/*"), RE.starL anyC, RE.lit (chars "*/")]

/-- `/\/\/.*$/gm` — line comments. -/
def lineCommentPat : RE :=
  reseq [RE.lit (chars "//"), RE.star notNl, RE.eolm]

/-- The comment stripping at the top of `extractFields`. -/
def cleanJavaContent (content : List Char) : List Char :=
  replaceAllEmpty lineCommentPat (replaceAllEmpty blockCommentPat content)

/-- the class `[\w,\s]` -/
def implC : Char → Bool := fun c => jsWord c ∨ c = ',' ∨ jsWs c
/-- the class `[;=]` -/
def semiEqC : Char → Bool := fun c => c = ';' ∨ c = '='
/-- the class `[^>]` -/
def notGt : Char → Bool := notCh '>'

/-- `` new RegExp(`(?:public\\s+)?class\\s+${className}\\s*(?:extends\\s+\\w+)?(?:\\s+implements\\s+[\\w,\\s]+)?\\s*\\{`, 'g') `` -/
def classRegex (className : List Char) : RE := reseq [
  RE.opt (RE.seq (RE.lit (chars "public")) wsPlus),
  RE.lit (chars "class"), wsPlus, RE.lit className, wsStar,
  RE.opt (reseq [RE.lit (chars "extends"), wsPlus, RE.plus jsWord]),
  RE.opt (reseq [wsPlus, RE.lit (chars "implements"), RE.plus implC]),
  wsStar, RE.lit (chars "\x7b")]

/-- One of the three field patterns, parameterized by the visibility
keyword: `/^\s*<vis>\s+(?:final\s+)?(\w+(?:<[^>]+>)?)\s+(\w+)\s*[;=]/gm` -/
def fieldPat (vis : String) : RE := reseq [
  RE.bolm, wsStar, RE.lit (chars vis), wsPlus,
  RE.opt (RE.seq (RE.lit (chars "final")) wsPlus),
  RE.grp 1 (RE.seq (RE.plus jsWord)
    (RE.opt (reseq [RE.lit (chars "<"), RE.plus notGt, RE.lit (chars ">")]))),
  wsPlus, RE.grp 2 (RE.plus jsWord), wsStar, RE.cls semiEqC]

def fieldPats : List RE := [fieldPat "private", fieldPat "public", fieldPat "protected"]

/-- The brace-counting loop of `extractClassBody`: number of characters
consumed before the matching close brace (or end of input), `none` when
the 100000-character safety guard trips. -/
def classBodyLen : List Char → Nat → Nat → Option Nat
  | s, bc, consumed =>
    if bc = 0 then some consumed
    else
      match s with
      | [] => some consumed
      | c :: rest =>
        if consumed + 1 > 100000 then none
        else if c = '\x7b' then classBodyLen rest (bc + 1) (consumed + 1)
        else if c = '\x7d' then classBodyLen rest (bc - 1) (consumed + 1)
        else classBodyLen rest bc (consumed + 1)

/-- `extractClassBody(content, startIndex)`: brace counting from depth 1;
the result is `content.substring(startIndex, index - 1)`, i.e. the body
without the closing brace (and without the final character when the
input ends before the braces balance). -/
def extractClassBody (content : List Char) (startIndex : Nat) : Option (List Char) :=
  match classBodyLen (content.drop startIndex) 1 0 with
  | none => none
  | some consumed => some ((content.drop startIndex).take (consumed - 1))

/-- `fieldName.toUpperCase() === fieldName` — the ALL-CAPS constant skip. -/
def isAllUpper (s : List Char) : Bool := jsUpper s = s

/-- `/^(List|Set|Collection|ArrayList|HashSet|Vector)</.test(fullType)`
(a start-anchored alternation of literals, equivalent to a prefix
test against each alternative followed by `<`). -/
def isCollectionType (fullType : List Char) : Bool :=
  ["List<", "Set<", "Collection<", "ArrayList<", "HashSet<", "Vector<"].any
    fun p => jsStartsWith fullType (chars p)

/-- `/<([^<>]+)>/` -/
def genericPat : RE :=
  reseq [RE.lit (chars "<"), RE.grp 1 (RE.plus notAngles), RE.lit (chars ">")]

/-- `parseFieldType(fullType, fieldName)` from BodyGenerator.ts.  The
source's try/catch can never fire on this pure computation, so the
`null` branch disappears. -/
def parseFieldType (fullType fieldName : List Char) : JavaField :=
  if isCollectionType fullType then
    match reExec genericPat fullType with
    | some m =>
      ⟨⟨fieldName⟩, ⟨fullType.takeWhile (notCh '<')⟩, true,
        some ⟨jsTrim (capGet m.caps 1 |>.getD [])⟩⟩
    | none => ⟨⟨fieldName⟩, ⟨fullType⟩, true, none⟩
  else ⟨⟨fieldName⟩, ⟨fullType⟩, false, none⟩

/-- The `while ((match = pattern.exec(classBody)) !== null)` loop body of
`extractFields`, for one pattern: skip already-found names, ALL-CAPS
names, method-like matches and names shorter than 2; push the parsed
field; stop after the push that reaches 20 fields. -/
def processFieldMatches : List ExecResult → List JavaField → List (List Char) →
    List JavaField × List (List Char)
  | [], fields, found => (fields, found)
  | m :: rest, fields, found =>
    let fullType := jsTrim (capGet m.caps 1 |>.getD [])
    let fieldName := jsTrim (capGet m.caps 2 |>.getD [])
    if found.contains fieldName ∨ isAllUpper fieldName ∨
        jsIncludes fieldName (chars "(") ∨ fieldName.length < 2 then
      processFieldMatches rest fields found
    else
      let fields' := fields ++ [parseFieldType fullType fieldName]
      let found' := found ++ [fieldName]
      if fields'.length ≥ 20 then (fields', found')
      else processFieldMatches rest fields' found'

/-- `extractFields(content, className)` from BodyGenerator.ts. -/
def extractFields (content className : String) : List JavaField :=
  let clean := cleanJavaContent content.data
  match reExec (classRegex className.data) clean with
  | none => []
  | some cm =>
    match extractClassBody clean cm.stop with
    | none => []
    | some classBody =>
      (fieldPats.foldl
        (fun acc pat => processFieldMatches (execAll pat classBody) acc.1 acc.2)
        ([], [])).1

/-- `type.charAt(0).toUpperCase() === type.charAt(0)` (vacuously true
for the empty string, since `charAt` then yields `""`). -/
def jsCapFirst (t : String) : Bool :=
  match t.data with
  | [] => true
  | c :: _ => jsUpperChar c = c

abbrev BodyCache := List (String × Jv)
abbrev FilesEnv := List (String × String)

/-- `findFiles` for `**/${className}.java` (max 10), falling back to
`**/*${className}*.java` (max 5), then `files[0]`. -/
def findClassFiles (env : FilesEnv) (className : String) : List (String × String) :=
  let exact := (env.filter fun f => f.1 = className ++ ".java").take 10
  if exact ≠ [] then exact
  else
    (env.filter fun f =>
      jsIncludes f.1.data className.data ∧ jsEndsWith f.1.data (chars ".java")).take 5

/-- `addToCache`: evict the 10 oldest entries at capacity 100, then
`Map.set` (update in place or append). -/
def addToCache (cache : BodyCache) (key : String) (v : Jv) : BodyCache :=
  let cache := if cache.length ≥ 100 then cache.drop 10 else cache
  if cache.any fun e => e.1 = key then
    cache.map fun e => if e.1 = key then (key, v) else e
  else cache ++ [(key, v)]

def MAX_FILE_SIZE : Nat := 1048576

/-!
The recursive body synthesis, with an explicit fuel parameter standing
for computation steps: each nested call costs one unit of fuel, and a
first component of `none` means the computation did not complete within
the given fuel (in the source this corresponds to the recursion running
until the wall-clock timeout aborts it).  `some none` is JavaScript
`undefined`, `some (some v)` a produced value.  The cache is threaded
exactly as the mutable static `Map` is: `generate` consults it on entry
and records a truthy result after `generateInternal` returns.  Note
that `generateValueByType` in the source computes
`const newVisited = new Set(visited); newVisited.add(type);` and then
never uses it: the nested `this.generate(type)` call reseeds the visited
set with `new Set([className])`, which the embedding reproduces.
-/

mutual

/-- `BodyGenerator.generate(className)` (cache consultation, then
`generateInternal`, then caching of a truthy result). -/
def bgGenerate (fuel : Nat) (env : FilesEnv) (cache : BodyCache) (className : String) :
    Option (Option Jv) × BodyCache :=
  match fuel with
  | 0 => (none, cache)
  | fuel' + 1 =>
    let cacheKey := "body:" ++ className
    match cache.find? fun e => e.1 = cacheKey with
    | some e => (some (some e.2), cache)
    | none =>
      match bgGenerateInternal fuel' env cache className with
      | (none, cache') => (none, cache')
      | (some res, cache') =>
        match res with
        | some v => (some res, addToCache cache' cacheKey v)
        | none => (some res, cache')

/-- `BodyGenerator.generateInternal(className)`. -/
def bgGenerateInternal (fuel : Nat) (env : FilesEnv) (cache : BodyCache) (className : String) :
    Option (Option Jv) × BodyCache :=
  match fuel with
  | 0 => (none, cache)
  | fuel' + 1 =>
    match findClassFiles env className with
    | [] => (some none, cache)
    | (_, content) :: _ =>
      if content.length > MAX_FILE_SIZE then (some none, cache)
      else
        let fields := extractFields content className
        if fields = [] then (some (some (Jv.obj [])), cache)
        else
          match bgGenerateSampleBody fuel' env cache [className] fields [] with
          | (none, cache') => (none, cache')
          | (some b, cache') => (some (some (Jv.obj b)), cache')

/-- JavaScript object insertion for JSON objects
(`body[field.name] = value`): overwrite in place or append. -/
def objSetJ (m : List (String × Jv)) (k : String) (v : Jv) : List (String × Jv) :=
  if m.any (fun e => e.1 = k) then m.map fun e => if e.1 = k then (k, v) else e
  else m ++ [(k, v)]

/-- `generateSampleBody(fields, visited)`: fields whose *name* is in the
visited set (or once the set exceeds 10 entries) are skipped outright;
the others get a collection or scalar value assigned into the
accumulated `body` object (initially empty). -/
def bgGenerateSampleBody (fuel : Nat) (env : FilesEnv) (cache : BodyCache)
    (visited : List String) (fields : List JavaField) (body : List (String × Jv)) :
    Option (List (String × Jv)) × BodyCache :=
  match fuel with
  | 0 => (none, cache)
  | fuel' + 1 =>
    match fields with
    | [] => (some body, cache)
    | f :: rest =>
      if visited.contains f.name ∨ visited.length > 10 then
        bgGenerateSampleBody fuel' env cache visited rest body
      else
        match
          (if f.isCollection then bgGenerateCollectionValue fuel' env cache visited f
           else bgGenerateFieldValue fuel' env cache visited f) with
        | (none, cache') => (none, cache')
        | (some v, cache') =>
          bgGenerateSampleBody fuel' env cache' visited rest (objSetJ body f.name v)

/-- `generateCollectionValue(field, visited)`: a one-element array over
the generic type when present and unvisited, else an empty array
(`generateValueByType` never yields `undefined`, so the
`sampleValue !== undefined` test always passes). -/
def bgGenerateCollectionValue (fuel : Nat) (env : FilesEnv) (cache : BodyCache)
    (visited : List String) (f : JavaField) : Option Jv × BodyCache :=
  match fuel with
  | 0 => (none, cache)
  | fuel' + 1 =>
    match f.genericType with
    | some g =>
      if visited.contains g then (some (Jv.arr []), cache)
      else
        match bgGenerateValueByType fuel' env cache visited g with
        | (none, cache') => (none, cache')
        | (some v, cache') => (some (Jv.arr [v]), cache')
    | none => (some (Jv.arr []), cache)

/-- `generateFieldValue(field, visited)`. -/
def bgGenerateFieldValue (fuel : Nat) (env : FilesEnv) (cache : BodyCache)
    (visited : List String) (f : JavaField) : Option Jv × BodyCache :=
  match fuel with
  | 0 => (none, cache)
  | fuel' + 1 => bgGenerateValueByType fuel' env cache visited f.type

/-- `generateValueByType(type, visited)`: table types first; then a
capitalized, unvisited type under the depth cap recurses through
`generate` (the computed `newVisited` being discarded by the source);
everything else resolves to `null`. -/
def bgGenerateValueByType (fuel : Nat) (env : FilesEnv) (cache : BodyCache)
    (visited : List String) (t : String) : Option Jv × BodyCache :=
  match fuel with
  | 0 => (none, cache)
  | fuel' + 1 =>
    match typeMapping t with
    | some v => (some v, cache)
    | none =>
      if jsCapFirst t ∧ ¬ visited.contains t ∧ visited.length < 5 then
        match bgGenerate fuel' env cache t with
        | (none, cache') => (none, cache')
        | (some none, cache') => (some Jv.null, cache')
        | (some (some b), cache') => (some b, cache')
      else (some Jv.null, cache)

end

/-! ## HttpGenerator: signature parsing (claims C7, C8) -/

/-- The character scanner of `splitParameters`: a quote not preceded by
a backslash toggles the in-string flag; outside strings, `<`/`(`
increment and `>`/`)` decrement the depth, and a comma at depth 0 closes
the current token (pushed trimmed, and only if nonempty after
trimming). -/
def splitParamsAux : List Char → Option Char → Int → Bool → List Char →
    List (List Char) → List (List Char)
  | [], _, _, _, current, acc =>
    if jsTrim current = [] then acc else acc ++ [jsTrim current]
  | c :: rest, pv, depth, inString, current, acc =>
    if c = '"' ∧ pv ≠ some '\\' then
      splitParamsAux rest (some c) depth (!inString) (current ++ [c]) acc
    else if inString then
      splitParamsAux rest (some c) depth true (current ++ [c]) acc
    else if c = '<' ∨ c = '(' then
      splitParamsAux rest (some c) (depth + 1) false (current ++ [c]) acc
    else if c = '>' ∨ c = ')' then
      splitParamsAux rest (some c) (depth - 1) false (current ++ [c]) acc
    else if c = ',' ∧ depth = 0 then
      splitParamsAux rest (some c) depth false []
        (if jsTrim current = [] then acc else acc ++ [jsTrim current])
    else
      splitParamsAux rest (some c) depth false (current ++ [c]) acc

/-- `splitParameters(paramString)` from HttpGenerator.ts (its try/catch
fallback is unreachable for this pure computation). -/
def splitParameters (paramString : String) : List String :=
  (splitParamsAux paramString.data none 0 false [] []).map fun p => (⟨p⟩ : String)

structure MethodParameter where
  anno : Option String
  type : String
  name : String
deriving DecidableEq

/-- `/(@\w+)(?:\([^)]*\))?\s+(.+)/` — note group 1 stops at the
annotation name; any parenthesized arguments fall into the
non-capturing group and are discarded. -/
def annotatedParamPat : RE := reseq [
  RE.grp 1 (RE.seq (RE.lit (chars "@")) (RE.plus jsWord)),
  RE.opt (reseq [RE.lit (chars "("), RE.star notParen, RE.lit (chars ")")]),
  wsPlus, RE.grp 2 (RE.plus notNl)]

/-- `/([\w<>\[\],\s]+)\s+(\w+)$/` -/
def typeNamePat : RE := reseq [
  RE.grp 1 (RE.plus typeC), wsPlus, RE.grp 2 (RE.plus jsWord), RE.eos]

/-- `parseParameter(param)` from HttpGenerator.ts. -/
def parseParameter (param : List Char) : Option MethodParameter :=
  match reExec annotatedParamPat param with
  | some m =>
    let remaining := capGet m.caps 2 |>.getD []
    match reExec typeNamePat remaining with
    | some tm =>
      some ⟨some ⟨capGet m.caps 1 |>.getD []⟩,
        ⟨jsTrim (capGet tm.caps 1 |>.getD [])⟩,
        ⟨jsTrim (capGet tm.caps 2 |>.getD [])⟩⟩
    | none => none
  | none =>
    match reExec typeNamePat param with
    | some tm =>
      some ⟨none,
        ⟨jsTrim (capGet tm.caps 1 |>.getD [])⟩,
        ⟨jsTrim (capGet tm.caps 2 |>.getD [])⟩⟩
    | none => none

/-- `/(public|private|protected)?\s*(static)?\s*[\w<>\[\],\s]+\s+(\w+)\s*\(([^)]*)\)/` -/
def methodPattern : RE := reseq [
  RE.opt (RE.grp 1 (RE.alt (RE.lit (chars "public"))
    (RE.alt (RE.lit (chars "private")) (RE.lit (chars "protected"))))),
  wsStar,
  RE.opt (RE.grp 2 (RE.lit (chars "static"))),
  wsStar,
  RE.plus typeC, wsPlus,
  RE.grp 3 (RE.plus jsWord), wsStar,
  RE.lit (chars "("), RE.grp 4 (RE.star notParen), RE.lit (chars ")")]

/-- `extractMethodInfo(text)` from HttpGenerator.ts: match the method
header, split the trimmed parameter substring, parse each token
(dropping unparsable ones). -/
def extractMethodInfo (text : String) : Option (String × List MethodParameter) :=
  match reExec methodPattern text.data with
  | none => none
  | some m =>
    let paramString := jsTrim (capGet m.caps 4 |>.getD [])
    let params :=
      if paramString = [] then []
      else (splitParamsAux paramString none 0 false [] []).filterMap
        fun p => parseParameter (jsTrim p)
    some (⟨capGet m.caps 3 |>.getD []⟩, params)

/-! ## HttpGenerator: class mapping, sample values, parameter handlers -/

/-- `String.prototype.split('\n')`. -/
def splitLines : List Char → List (List Char)
  | [] => [[]]
  | c :: rest =>
    if c = '\n' then [] :: splitLines rest
    else
      match splitLines rest with
      | [] => [[c]]
      | piece :: pieces => (c :: piece) :: pieces

/-- `/@RequestMapping\s*\(\s*"([^"]+)"\s*\)/` (class-level form). -/
def classMappingPat : RE := reseq [
  RE.lit (chars "@RequestMapping"), wsStar, RE.lit (chars "("), wsStar,
  RE.lit (chars "\""), RE.grp 1 (RE.plus notQuote), RE.lit (chars "\""),
  wsStar, RE.lit (chars ")")]

/-- `extractClassMapping(fullText, methodLine)`: scan at most 50 lines
backward for the first line containing `class `, then at most 10 lines
above it for a class-level `@RequestMapping("...")`.  When the forward
scan runs past the last line, the source dereferences `undefined` and
the resulting TypeError is caught, yielding `undefined` — the same
outcome as not finding a class line, so both collapse to `none`. -/
def extractClassMapping (fullText : String) (methodLine : Nat) : Option String :=
  let lines := splitLines fullText.data
  let lo := methodLine - 50
  let idxs := (List.range' lo (methodLine + 1 - lo)).filter fun i => i < lines.length
  match idxs.find? (fun i => jsIncludes (lines.getD i []) (chars "class ")) with
  | none => none
  | some i =>
    let jdxs := List.range' (i - 10) (i + 1 - (i - 10))
    (jdxs.findSome? fun j =>
      match reExec classMappingPat (lines.getD j []) with
      | some m => some (capGet m.caps 1 |>.getD [])
      | none => none).map fun v => (⟨v⟩ : String)

/-- `generateSamplePathValue(type)`. -/
def generateSamplePathValue (type : String) : String :=
  let t := jsLower type.data
  if t = chars "string" then "sample-id"
  else if t = chars "long" ∨ t = chars "integer" ∨ t = chars "int" then "123"
  else if t = chars "uuid" then "550e8400-e29b-41d4-a716-446655440000"
  else "sample-value"

/-- `generateSampleQueryValue(type)`. -/
def generateSampleQueryValue (type : String) : String :=
  let t := jsLower type.data
  if t = chars "string" then "sample"
  else if t = chars "boolean" then "true"
  else if t = chars "integer" ∨ t = chars "int" ∨ t = chars "long" then "10"
  else if t = chars "double" ∨ t = chars "float" then "10.5"
  else "value"

/-- `generateSampleHeaderValue(type, headerName)` (the type argument is
unused by the source as well). -/
def generateSampleHeaderValue (type headerName : String) : String :=
  let lower := jsLower headerName.data
  if jsIncludes lower (chars "authorization") ∨ jsIncludes lower (chars "auth") then
    "Bearer your-token-here"
  else if jsIncludes lower (chars "content-type") then "application/json"
  else if jsIncludes lower (chars "accept") then "application/json"
  else "header-value"

/-- `/@\w+\s*\(\s*"([^"]+)"\s*\)/` -/
def annotationValuePat1 : RE := reseq [
  RE.lit (chars "@"), RE.plus jsWord, wsStar, RE.lit (chars "("), wsStar,
  RE.lit (chars "\""), RE.grp 1 (RE.plus notQuote), RE.lit (chars "\""),
  wsStar, RE.lit (chars ")")]

/-- `/@\w+\s*\([^)]*value\s*=\s*"([^"]+)"[^)]*\)/` -/
def annotationValuePat2 : RE := reseq [
  RE.lit (chars "@"), RE.plus jsWord, wsStar, RE.lit (chars "("),
  RE.star notParen, RE.lit (chars "value"), wsStar, RE.lit (chars "="), wsStar,
  RE.lit (chars "\""), RE.grp 1 (RE.plus notQuote), RE.lit (chars "\""),
  RE.star notParen, RE.lit (chars ")")]

/-- `extractAnnotationValue(annotation)` from HttpGenerator.ts. -/
def extractAnnotationValue (anno : String) : Option String :=
  match reExec annotationValuePat1 anno.data with
  | some m => some ⟨capGet m.caps 1 |>.getD []⟩
  | none =>
    match reExec annotationValuePat2 anno.data with
    | some m => some ⟨capGet m.caps 1 |>.getD []⟩
    | none => none

/-- JavaScript object insertion (`obj[k] = v`): overwrite in place or
append, preserving insertion order. -/
def objSet (m : List (String × String)) (k v : String) : List (String × String) :=
  if m.any (fun e => e.1 = k) then m.map fun e => if e.1 = k then (k, v) else e
  else m ++ [(k, v)]

def objGet (m : List (String × String)) (k : String) : Option String :=
  (m.find? fun e => e.1 = k).map Prod.snd

def hasKey (m : List (String × String)) (k : String) : Bool :=
  m.any fun e => e.1 = k

/-- JavaScript truthiness of an optional String. -/
def jsTruthyS (o : Option String) : Bool :=
  match o with
  | none => false
  | some s => s ≠ ""

/-- `handlePathVariable(url, param)`: the binding name is the annotation
argument when extractable (it never is, since `parseParameter` strips
the arguments) else the parameter name; the first occurrence of the
`\x7bname\x7d` placeholder is replaced by a type-driven sample. -/
def handlePathVariable (url : List Char) (p : MethodParameter) : List Char :=
  let pathVarName :=
    match p.anno with
    | some a => ((extractAnnotationValue a).getD p.name).data
    | none => p.name.data
  replaceFirst (RE.lit ('\x7b' :: pathVarName ++ ['\x7d'])) url
    (generateSamplePathValue p.type).data

/-- `handleRequestParam(queryParams, param)`. -/
def handleRequestParam (queryParams : List (List Char)) (p : MethodParameter) :
    List (List Char) :=
  let paramName :=
    match p.anno with
    | some a => ((extractAnnotationValue a).getD p.name).data
    | none => p.name.data
  queryParams ++ [paramName ++ '=' :: (generateSampleQueryValue p.type).data]

/-- `handleRequestHeader(headers, param)`. -/
def handleRequestHeader (headers : List (String × String)) (p : MethodParameter) :
    List (String × String) :=
  let headerName :=
    match p.anno with
    | some a => (extractAnnotationValue a).getD p.name
    | none => p.name
  objSet headers headerName (generateSampleHeaderValue p.type headerName)

/-- `handleDefaultParam(queryParams, param, method)`: an unannotated
parameter contributes `name=value` only for GET and only below the cap
of 10 accumulated query parameters. -/
def handleDefaultParam (queryParams : List (List Char)) (p : MethodParameter)
    (method : String) : List (List Char) :=
  if p.anno = none ∧ method = "GET" ∧ queryParams.length < 10 then
    queryParams ++ [p.name.data ++ '=' :: (generateSampleQueryValue p.type).data]
  else queryParams

/-! ## HttpGenerator: parameter processing and request assembly
(claims C3, C4, C8) -/

structure ProcState where
  url : List Char
  body : Option Jv
  headers : List (String × String)
  queryParams : List (List Char)

/-- `handleRequestBody(body, param)`: only the first body parameter
synthesizes a value. -/
def handleRequestBody (fuel : Nat) (env : FilesEnv) (cache : BodyCache)
    (body : Option Jv) (p : MethodParameter) : Option (Option Jv) × BodyCache :=
  match body with
  | none => bgGenerate fuel env cache p.type
  | some b => (some (some b), cache)

def joinAmp : List (List Char) → List Char
  | [] => []
  | [q] => q
  | q :: rest => q ++ '&' :: joinAmp rest

/-- The parameter loop of `processMethodParameters`, dispatching on the
literal annotation token. -/
def processParamsLoop (fuel : Nat) (env : FilesEnv) (method : String) :
    List MethodParameter → ProcState → BodyCache → Option ProcState × BodyCache
  | [], st, cache => (some st, cache)
  | p :: rest, st, cache =>
    if p.anno = some "@RequestBody" then
      match handleRequestBody fuel env cache st.body p with
      | (none, cache') => (none, cache')
      | (some b, cache') => processParamsLoop fuel env method rest { st with body := b } cache'
    else if p.anno = some "@PathVariable" then
      processParamsLoop fuel env method rest { st with url := handlePathVariable st.url p } cache
    else if p.anno = some "@RequestParam" then
      processParamsLoop fuel env method rest
        { st with queryParams := handleRequestParam st.queryParams p } cache
    else if p.anno = some "@RequestHeader" then
      processParamsLoop fuel env method rest
        { st with headers := handleRequestHeader st.headers p } cache
    else
      processParamsLoop fuel env method rest
        { st with queryParams := handleDefaultParam st.queryParams p method } cache

/-- `processMethodParameters(parameters, basePath, method)`: run the
loop from the base path, then append the accumulated query string with
`?` (or `&` when the URL already contains one). -/
def processMethodParameters (fuel : Nat) (env : FilesEnv) (cache : BodyCache)
    (params : List MethodParameter) (basePath : String) (method : String) :
    Option ProcState × BodyCache :=
  match processParamsLoop fuel env method params ⟨basePath.data, none, [], []⟩ cache with
  | (none, cache') => (none, cache')
  | (some st, cache') =>
    if st.queryParams ≠ [] then
      let sep : Char := if jsIncludes st.url (chars "?") then '&' else '?'
      (some { st with url := st.url ++ sep :: joinAmp st.queryParams }, cache')
    else (some st, cache')

/-- `consumes?.[0] || 'application/json'` (and likewise for produces). -/
def firstOrJson (xs : Option (List String)) : String :=
  match xs with
  | some (v :: _) => if v = "" then "application/json" else v
  | _ => "application/json"

/-- Lines 65–67 of HttpGenerator.ts: ensure a Content-Type header when a
body is present and an Accept header always, defaulting each to the
first declared content type or `application/json`. -/
def assembleFinalHeaders (headers : List (String × String)) (bodyPresent : Bool)
    (consumes produces : Option (List String)) : List (String × String) :=
  let fh1 :=
    if bodyPresent ∧ ¬ jsTruthyS (objGet headers "Content-Type") then
      objSet headers "Content-Type" (firstOrJson consumes)
    else headers
  if ¬ jsTruthyS (objGet fh1 "Accept") then objSet fh1 "Accept" (firstOrJson produces)
  else fh1

/-! ## Configuration resolver (claim C6) -/

/-- The configuration environment: file name ↦ content, or a read
failure (`Except.error`), for the at-most-one file that
`findFiles(**/name, …, 1)` returns. -/
abbrev CfgEnv := List (String × Except Unit String)

def findCfgFile (env : CfgEnv) (name : String) : Option (Except Unit String) :=
  (env.find? fun e => e.1 = name).map Prod.snd

/-- `/server\.port\s*[:=]\s*(\d+)/` -/
def propsPortPat : RE := reseq [
  RE.lit (chars "server.port"), wsStar, RE.cls colonEqC, wsStar,
  RE.grp 1 (RE.plus jsDigit)]

/-- `/server\.servlet\.context-path\s*=\s*([^\s]+)/` -/
def propsCtxPat : RE := reseq [
  RE.lit (chars "server.servlet.context-path"), wsStar, RE.lit (chars "="), wsStar,
  RE.grp 1 (RE.plus notWsC)]

/-- `/server:\s*\n\s*port:\s*(\d+)/` -/
def yamlPortPat : RE := reseq [
  RE.lit (chars "server:"), wsStar, RE.lit (chars "\n"), wsStar,
  RE.lit (chars "port:"), wsStar, RE.grp 1 (RE.plus jsDigit)]

/-- `/server:\s*\n\s*servlet:\s*\n\s*context-path:\s*([^\s]+)/` -/
def yamlCtxPat : RE := reseq [
  RE.lit (chars "server:"), wsStar, RE.lit (chars "\n"), wsStar,
  RE.lit (chars "servlet:"), wsStar, RE.lit (chars "\n"), wsStar,
  RE.lit (chars "context-path:"), wsStar, RE.grp 1 (RE.plus notWsC)]

/-- Apply one properties-style configuration file to the accumulated
`(port, contextPath)` state. -/
def applyPropsCfg (content : List Char) (port : Nat) (cp : List Char) : Nat × List Char :=
  let port' :=
    match reExec propsPortPat content with
    | some m => digitsToNat (capGet m.caps 1 |>.getD [])
    | none => port
  let cp' :=
    match reExec propsCtxPat content with
    | some m => capGet m.caps 1 |>.getD []
    | none => cp
  (port', cp')

/-- Apply one YAML-style configuration file. -/
def applyYamlCfg (content : List Char) (port : Nat) (cp : List Char) : Nat × List Char :=
  let port' :=
    match reExec yamlPortPat content with
    | some m => digitsToNat (capGet m.caps 1 |>.getD [])
    | none => port
  let cp' :=
    match reExec yamlCtxPat content with
    | some m => capGet m.caps 1 |>.getD []
    | none => cp
  (port', cp')

/-- The port a properties file contributes, if its pattern matches. -/
def propsPortOf (content : String) : Option Nat :=
  (reExec propsPortPat content.data).map fun m => digitsToNat (capGet m.caps 1 |>.getD [])

/-- The context path a properties file contributes. -/
def propsCtxOf (content : String) : Option (List Char) :=
  (reExec propsCtxPat content.data).map fun m => capGet m.caps 1 |>.getD []

/-- The port a YAML file contributes. -/
def yamlPortOf (content : String) : Option Nat :=
  (reExec yamlPortPat content.data).map fun m => digitsToNat (capGet m.caps 1 |>.getD [])

/-- The context path a YAML file contributes. -/
def yamlCtxOf (content : String) : Option (List Char) :=
  (reExec yamlCtxPat content.data).map fun m => capGet m.caps 1 |>.getD []

/-- The `for (const configFile of configFiles)` loop of
`detectServerConfig`: every found file is applied in turn (the loop does
not stop at the first one), and a read failure aborts the remainder of
the loop via the surrounding catch, keeping the values read so far. -/
def dscLoop (env : CfgEnv) : List String → Nat → List Char → Nat × List Char
  | [], port, cp => (port, cp)
  | name :: rest, port, cp =>
    match findCfgFile env name with
    | none => dscLoop env rest port cp
    | some (.error _) => (port, cp)
    | some (.ok content) =>
      if jsEndsWith name.data (chars ".properties") then
        match applyPropsCfg content.data port cp with
        | (port', cp') => dscLoop env rest port' cp'
      else
        match applyYamlCfg content.data port cp with
        | (port', cp') => dscLoop env rest port' cp'

/-- `detectServerConfig()` over an explicit configuration environment:
defaults `(8080, "")`, then the three known file names in order. -/
def detectServerConfig (env : CfgEnv) : Nat × String :=
  match dscLoop env ["application.properties", "application.yml", "application.yaml"]
      8080 [] with
  | (port, cp) => (port, ⟨cp⟩)

/-! ## Request assembly: generateInternal (claims C3, C4) -/

structure IRequest where
  method : String
  url : String
  body : Option Jv
  headers : List (String × String)

def MAX_URL_LENGTH : Nat := 2048

/-- `generateInternal(document, range)` with the editor layer made
explicit: `text` is the selected annotation+method text, `fullText` the
whole document, `startLine` the selection's first line.  `some none`
models a thrown error (caught by `generate`, which then yields no
request); the first `none` layer is fuel exhaustion of the body
synthesis.  `classMapping || ''` agrees with `getD ""` because the
class-mapping capture is nonempty whenever present. -/
def generateInternal (fuel : Nat) (env : FilesEnv) (cfgEnv : CfgEnv) (cache : BodyCache)
    (text fullText : String) (startLine : Nat) : Option (Option IRequest) × BodyCache :=
  if jsTrim text.data = [] ∨ text.data.length > 10000 then (some none, cache)
  else
    match extractMappingInfo text with
    | none => (some none, cache)
    | some mapping =>
      let basePath := (extractClassMapping fullText startLine).getD ""
      match extractMethodInfo text with
      | none => (some none, cache)
      | some (_, params) =>
        let fullPath := combinePaths basePath mapping.path
        match processMethodParameters fuel env cache params fullPath mapping.method with
        | (none, cache') => (none, cache')
        | (some st, cache') =>
          if st.url.length > MAX_URL_LENGTH then (some none, cache')
          else
            let finalHeaders :=
              assembleFinalHeaders st.headers st.body.isSome mapping.consumes mapping.produces
            match detectServerConfig cfgEnv with
            | (port, contextPath) =>
              let baseUrl := "http://localhost:" ++ toString port ++ contextPath
              let finalUrl :=
                if jsStartsWith st.url (chars "http") then st.url
                else baseUrl.data ++ st.url
              (some (some ⟨mapping.method, ⟨finalUrl⟩, st.body, finalHeaders⟩), cache')

/-! ## Concrete workspaces used by the theorems below -/

/-- Two classes whose fields reference each other. -/
def envAB : FilesEnv :=
  [("A.java", "public class A \x7b private B bb; \x7d"),
   ("B.java", "public class B \x7b private A aa; \x7d")]

/-- A class whose only field references the class itself. -/
def envSelf : FilesEnv :=
  [("Node.java", "public class Node \x7b private Node self; \x7d")]

/-- A class with a field named exactly like the class. -/
def envFoo : FilesEnv :=
  [("Foo.java", "public class Foo \x7b private String Foo; \x7d")]

/-- A class with a field of an unresolvable type (no `Baz.java`). -/
def envBar : FilesEnv :=
  [("Bar.java", "public class Bar \x7b private Baz qq; \x7d")]

/-- The single field of `A.java` / of `B.java` above, as extracted. -/
def fieldBB : JavaField := ⟨"bb", "B", false, none⟩

def fieldAA : JavaField := ⟨"aa", "A", false, none⟩

/-- Comma count of a token (used to state that parameter splitting
loses exactly the separator commas). -/
def commaCount (l : List Char) : Nat := l.countP fun c => c = ','

/-- The comma-protection reference scanner, modelled on the
specification sentence: "increments depth on `<` or `(`, decrements on
`>` or `)`, never splits on a comma in a string literal or at nonzero
depth".  It counts exactly the commas the splitter must not split on
(those inside a string literal or at nonzero depth). -/
def specKeptCommas : List Char → Option Char → Int → Bool → Nat
  | [], _, _, _ => 0
  | c :: rest, pv, depth, inString =>
    if c = '"' ∧ pv ≠ some '\\' then specKeptCommas rest (some c) depth (!inString)
    else if inString then
      (if c = ',' then 1 else 0) + specKeptCommas rest (some c) depth true
    else if c = '<' ∨ c = '(' then specKeptCommas rest (some c) (depth + 1) false
    else if c = '>' ∨ c = ')' then specKeptCommas rest (some c) (depth - 1) false
    else if c = ',' ∧ depth = 0 then specKeptCommas rest (some c) depth false
    else (if c = ',' then 1 else 0) + specKeptCommas rest (some c) depth false

/-- All boundary slashes of the class-level path side. -/
def dropTrailingSlashes (s : List Char) : List Char :=
  (s.reverse.dropWhile fun c => c = '/').reverse

/-- All boundary slashes of the method-level path side. -/
def dropLeadingSlashes (s : List Char) : List Char :=
  s.dropWhile fun c => c = '/'

/-- The fixtures for the URL-length analysis: a class-level mapping
whose path is `/` followed by 2045 dashes, a class line, and a short
method selection.  The method-level path `/a` brings the combined path
to exactly 2048 characters — the maximum the length check accepts —
while the `http://localhost:8080` prefix is prepended only afterwards. -/
def dashesN : List Char := List.replicate 2045 '-'

def classPathL : List Char := '/' :: dashesN

def line0L : List Char := chars "@RequestMapping(\"" ++ classPathL ++ chars "\")"

def line1L : List Char := chars "public class C \x7b"

def line2L : List Char := chars "@GetMapping(\"/a\") public void m()"

def shortTextC4 : String := ⟨line2L⟩

def fullTextC4 : String := ⟨line0L ++ '\n' :: (line1L ++ '\n' :: line2L)⟩

def fullPathC4 : List Char := classPathL ++ '/' :: ['a']

def urlC4 : List Char := chars "http://localhost:8080" ++ fullPathC4

/-- A workspace and selection used to exercise the full assembly
pipeline with a request body. -/
def envFooBody : FilesEnv := [("Foo.java", "public class Foo \x7b private String nm; \x7d")]

def textPostFoo : String := "@PostMapping(\"/a\") public void m(@RequestBody Foo ff)"

/-! # Theorems -/

/-- **C1.**  The claim asserts that `extractMappingInfo` is insensitive
to the order of the `method =` and `value =` attributes of a generic
`@RequestMapping`.  The code is not: for the path-first ordering,
pattern `mapPat3` captures (path, method) into groups (1, 2), but the
branch for two truthy groups in `matchSpringMappingPattern` reads
group 1 as the verb and group 2 as the path, so the two attributes come
back swapped (and upper-cased on the wrong side), violating both the
order-independence claim and the `HttpMethod` enumeration invariant. -/
theorem c1_requestMapping_attribute_order_dependent :
    extractMappingInfo "@RequestMapping(method = RequestMethod.POST, value = \"/users\")"
      = some ⟨"POST", "/users", none, none⟩ ∧
    extractMappingInfo "@RequestMapping(value = \"/users\", method = RequestMethod.POST)"
      = some ⟨"/USERS", "POST", none, none⟩ ∧
    (("/USERS" : String), ("POST" : String)) ≠ ("POST", "/users") :=
  ⟨by decide, by decide, by decide⟩

/-! ### C2: the visited chain is not threaded through nested generation -/

/-- One hop of the mutual recursion `A → B`: five units of fuel take the
generator from the entry for `A` to the nested `generate("B")` call, so
an out-of-fuel result for `B` forces one for `A`. -/
theorem bgChainA (m : Nat) (h : bgGenerate m envAB [] "B" = (none, [])) :
    bgGenerate (m + 5) envAB [] "A" = (none, []) := by
  have e1 : bgGenerateValueByType (m + 1) envAB [] ["A"] "B" = (none, []) := by
    show (match bgGenerate m envAB [] "B" with
          | (none, c) => ((none : Option Jv), c)
          | (some none, c) => (some Jv.null, c)
          | (some (some b), c) => (some b, c)) = (none, [])
    rw [h]
  have e2 : bgGenerateFieldValue (m + 2) envAB [] ["A"] fieldBB = (none, []) := by
    show bgGenerateValueByType (m + 1) envAB [] ["A"] "B" = (none, [])
    exact e1
  have e3 : bgGenerateSampleBody (m + 3) envAB [] ["A"] [fieldBB] [] = (none, []) := by
    show (match bgGenerateFieldValue (m + 2) envAB [] ["A"] fieldBB with
          | (none, c) => ((none : Option (List (String × Jv))), c)
          | (some v, c) => bgGenerateSampleBody (m + 2) envAB c ["A"] [] (objSetJ [] "bb" v)) =
        (none, [])
    rw [e2]
  have e4 : bgGenerateInternal (m + 4) envAB [] "A" = (none, []) := by
    show (match bgGenerateSampleBody (m + 3) envAB [] ["A"] [fieldBB] [] with
          | (none, c) => ((none : Option (Option Jv)), c)
          | (some b, c) => (some (some (Jv.obj b)), c)) = (none, [])
    rw [e3]
  show (match bgGenerateInternal (m + 4) envAB [] "A" with
        | (none, cache') => ((none : Option (Option Jv)), cache')
        | (some res, cache') =>
          match res with
          | some v => (some res, addToCache cache' ("body:" ++ "A") v)
          | none => (some res, cache')) = (none, [])
  rw [e4]

/-- The symmetric hop `B → A`. -/
theorem bgChainB (m : Nat) (h : bgGenerate m envAB [] "A" = (none, [])) :
    bgGenerate (m + 5) envAB [] "B" = (none, []) := by
  have e1 : bgGenerateValueByType (m + 1) envAB [] ["B"] "A" = (none, []) := by
    show (match bgGenerate m envAB [] "A" with
          | (none, c) => ((none : Option Jv), c)
          | (some none, c) => (some Jv.null, c)
          | (some (some b), c) => (some b, c)) = (none, [])
    rw [h]
  have e2 : bgGenerateFieldValue (m + 2) envAB [] ["B"] fieldAA = (none, []) := by
    show bgGenerateValueByType (m + 1) envAB [] ["B"] "A" = (none, [])
    exact e1
  have e3 : bgGenerateSampleBody (m + 3) envAB [] ["B"] [fieldAA] [] = (none, []) := by
    show (match bgGenerateFieldValue (m + 2) envAB [] ["B"] fieldAA with
          | (none, c) => ((none : Option (List (String × Jv))), c)
          | (some v, c) => bgGenerateSampleBody (m + 2) envAB c ["B"] [] (objSetJ [] "aa" v)) =
        (none, [])
    rw [e2]
  have e4 : bgGenerateInternal (m + 4) envAB [] "B" = (none, []) := by
    show (match bgGenerateSampleBody (m + 3) envAB [] ["B"] [fieldAA] [] with
          | (none, c) => ((none : Option (Option Jv)), c)
          | (some b, c) => (some (some (Jv.obj b)), c)) = (none, [])
    rw [e3]
  show (match bgGenerateInternal (m + 4) envAB [] "B" with
        | (none, cache') => ((none : Option (Option Jv)), cache')
        | (some res, cache') =>
          match res with
          | some v => (some res, addToCache cache' ("body:" ++ "B") v)
          | none => (some res, cache')) = (none, [])
  rw [e4]

/-- For every fuel, generating a body for `A` (or `B`) in `envAB` runs
out: the recursion never completes, and the cache never receives an
entry (entries are only written after a nested generation finishes). -/
theorem bgAB_never_completes : ∀ n,
    bgGenerate n envAB [] "A" = (none, []) ∧ bgGenerate n envAB [] "B" = (none, []) := by
  intro n
  induction n using Nat.strong_induction_on with
  | _ n ih =>
    match n with
    | 0 => exact ⟨by rfl, by rfl⟩
    | 1 => exact ⟨by rfl, by rfl⟩
    | 2 => exact ⟨by rfl, by rfl⟩
    | 3 => exact ⟨by rfl, by rfl⟩
    | 4 => exact ⟨by rfl, by rfl⟩
    | (m + 5) =>
      exact ⟨bgChainA m (ih m (by omega)).2, bgChainB m (ih m (by omega)).1⟩

/-- **C2.**  The claim says recursive body synthesis terminates for all
type definitions — including mutual recursion — because a type in the
active visited chain or past the depth cap resolves to `null`.  The
source computes `newVisited` but never passes it: `generate` reseeds
`visited` with the single class name, so mutual recursion `A ↔ B` never
meets the visited check or the depth cap and recurses until the
wall-clock timeout (here: for every fuel the computation is still
incomplete).  The self-referencing part of the claim does hold, since
`generateInternal` seeds the visited set with the class itself:
synthesizing `Node` yields `{"self": null}`. -/
theorem c2_mutual_recursion_never_terminates :
    (∀ fuel, bgGenerate fuel envAB [] "A" = (none, [])) ∧
    bgGenerate 9 envSelf [] "Node" =
      (some (some (Jv.obj [("self", Jv.null)])),
        [("body:Node", Jv.obj [("self", Jv.null)])]) :=
  ⟨fun fuel => (bgAB_never_completes fuel).1, by rfl⟩


/-! ### C5: path combination -/

lemma dropLast_eq_reverse_tail (b : List Char) : b.dropLast = b.reverse.tail.reverse := by
  induction b using List.reverseRecOn with
  | nil => rfl
  | append_singleton xs x _ => simp

lemma c5_general (b p : List Char) (hb : b ≠ []) (hp : p ≠ [])
    (h2 : jsEndsWith b (chars "//") = false)
    (h4 : jsStartsWith p (chars "//") = false) :
    combinePathsL b p = dropTrailingSlashes b ++ '/' :: dropLeadingSlashes p := by
  have base_eq : (if jsEndsWith b ['/'] then b.dropLast else b) = dropTrailingSlashes b := by
    have hrep : jsEndsWith b ['/'] = isSubseqAt ['/'] b.reverse := rfl
    have hrep2 : jsEndsWith b (chars "//") = isSubseqAt ['/', '/'] b.reverse := rfl
    rw [hrep2] at h2
    unfold dropTrailingSlashes
    cases hr : b.reverse with
    | nil =>
      exact absurd (by simpa using congrArg List.reverse hr) hb
    | cons c t =>
      rw [hr] at h2
      by_cases hc : c = '/'
      · subst hc
        have hne : isSubseqAt ['/'] t = false := by simpa [isSubseqAt] using h2
        have hcond : jsEndsWith b ['/'] = true := by
          rw [hrep, hr]; simp [isSubseqAt]
        rw [hcond]
        simp only [if_true]
        rw [dropLast_eq_reverse_tail, hr]
        cases t with
        | nil => simp [List.dropWhile]
        | cons d t' =>
          have hd : d ≠ '/' := by
            intro hdd
            simp [isSubseqAt, hdd] at hne
          simp [List.dropWhile, hd]
      · have hcs : ('/' : Char) ≠ c := fun h => hc h.symm
        have hcond : jsEndsWith b ['/'] = false := by
          rw [hrep, hr]
          simp [isSubseqAt, hcs]
        rw [hcond]
        simp only [Bool.false_eq_true, if_false]
        rw [List.dropWhile_cons_of_neg (by simp [hc]), ← hr]
        simp
  have path_eq : (if jsStartsWith p ['/'] then p.drop 1 else p) = dropLeadingSlashes p := by
    unfold dropLeadingSlashes
    cases p with
    | nil => exact absurd rfl hp
    | cons c t =>
      by_cases hc : c = '/'
      · subst hc
        have hne : isSubseqAt ['/'] t = false := by
          have hrep4 : jsStartsWith ('/' :: t) (chars "//") = isSubseqAt ['/', '/'] ('/' :: t) := rfl
          rw [hrep4] at h4
          simpa [isSubseqAt] using h4
        have hcond : jsStartsWith ('/' :: t) ['/'] = true := by simp [jsStartsWith, isSubseqAt]
        rw [hcond]
        simp only [if_true]
        cases t with
        | nil => simp [List.dropWhile]
        | cons d t' =>
          have hd : d ≠ '/' := by
            intro hdd
            simp [isSubseqAt, hdd] at hne
          simp [List.dropWhile, hd]
      · have hcs : ('/' : Char) ≠ c := fun h => hc h.symm
        have hcond : jsStartsWith (c :: t) ['/'] = false := by
          simp [jsStartsWith, isSubseqAt, hcs]
        rw [hcond]
        simp only [Bool.false_eq_true, if_false]
        rw [List.dropWhile_cons_of_neg (by simp [hc])]
  show combinePathsL (b) (p) = _
  unfold combinePathsL
  rw [if_neg hb, if_neg hp]
  rw [base_eq, path_eq]

/-- **C5 counterexample.**  The claim promises "exactly one separating
slash" / "no doubled slash" for the join, but only one trailing and one
leading slash are stripped: a class path ending in a doubled slash
survives into the result. -/
theorem c5_double_slash_counterexample :
    combinePaths "/api//" "/users" = "/api//users" ∧
    jsIncludes (combinePaths "/api//" "/users").data (chars "//") = true ∧
    combinePaths "/api//" "/users" ≠ "/api/users" :=
  ⟨by decide, by decide, by decide⟩

/-- **C5 (amended).**  `combinePaths` passes an empty side through
unchanged, satisfies the three examples of the claim, and joins with
exactly one separating slash whenever neither side carries a doubled
slash at the joint boundary (the code strips exactly one trailing and
one leading slash, so doubled boundary slashes survive). -/
theorem c5_combine_paths_amended :
    (∀ p : String, combinePaths "" p = p) ∧
    (∀ b : String, combinePaths b "" = b) ∧
    combinePaths "" "/users" = "/users" ∧
    combinePaths "/api" "/users" = "/api/users" ∧
    combinePaths "/api/" "/users" = "/api/users" ∧
    (∀ b p : String, b.data ≠ [] → p.data ≠ [] →
      jsEndsWith b.data (chars "//") = false →
      jsStartsWith p.data (chars "//") = false →
      (combinePaths b p).data =
        dropTrailingSlashes b.data ++ '/' :: dropLeadingSlashes p.data) := by
  refine ⟨fun p => rfl, fun b => ?_, by decide, by decide, by decide, fun b p hb hp h2 h4 => ?_⟩
  · show (⟨combinePathsL b.data []⟩ : String) = b
    unfold combinePathsL
    by_cases hd : b.data = []
    · rw [if_pos hd]
      exact congrArg String.mk hd.symm
    · rw [if_neg hd, if_pos rfl]
  · show (combinePathsL b.data p.data) = _
    exact c5_general b.data p.data hb hp h2 h4

/-- **C5 witness.**  The amended general clause instantiated at
`/api/` and `/users`. -/
theorem c5_combine_paths_amended_witness :
    (combinePaths "/api/" "/users").data =
      dropTrailingSlashes (chars "/api/") ++ '/' :: dropLeadingSlashes (chars "/users") :=
  c5_combine_paths_amended.2.2.2.2.2 "/api/" "/users"
    (by decide) (by decide) (by decide) (by decide)


/-! ### C6: configuration resolution -/

/-- **C6 counterexample.**  The claim says the first configuration file
found wins.  The loop in `detectServerConfig` has no early exit: a
`server.port` read from `application.properties` is overwritten by a
port found later in `application.yml`. -/
theorem c6_last_config_wins_counterexample :
    (detectServerConfig [("application.properties", .ok "server.port=9000")]).1 = 9000 ∧
    (detectServerConfig
      [("application.properties", .ok "server.port=9000"),
       ("application.yml", .ok "server:\n  port: 7000")]).1 = 7000 :=
  ⟨by decide, by decide⟩

lemma applyPropsCfg_eq (content : String) (port : Nat) (cp : List Char) :
    applyPropsCfg content.data port cp
      = ((propsPortOf content).getD port, (propsCtxOf content).getD cp) := by
  unfold applyPropsCfg propsPortOf propsCtxOf
  cases reExec propsPortPat content.data <;> cases reExec propsCtxPat content.data <;> rfl

lemma applyYamlCfg_eq (content : String) (port : Nat) (cp : List Char) :
    applyYamlCfg content.data port cp
      = ((yamlPortOf content).getD port, (yamlCtxOf content).getD cp) := by
  unfold applyYamlCfg yamlPortOf yamlCtxOf
  cases reExec yamlPortPat content.data <;> cases reExec yamlCtxPat content.data <;> rfl

lemma dscLoop_err_step (env : CfgEnv) (n : String) (rest : List String)
    (port : Nat) (cp : List Char) (h : findCfgFile env n = some (.error ())) :
    dscLoop env (n :: rest) port cp = (port, cp) := by
  simp [dscLoop, h]

lemma dscLoop_props_opt_step (env : CfgEnv) (rest : List String) (port : Nat)
    (cp : List Char) (o : Option String)
    (h : findCfgFile env "application.properties" = Option.map Except.ok o) :
    dscLoop env ("application.properties" :: rest) port cp
      = dscLoop env rest ((o.bind propsPortOf).getD port) ((o.bind propsCtxOf).getD cp) := by
  cases o with
  | none => simp [dscLoop, h, Option.map]
  | some c =>
    rw [show Option.map Except.ok (some c) = some (Except.ok c) from rfl] at h
    have he : jsEndsWith ("application.properties" : String).data (chars ".properties")
        = true := by decide
    simp [dscLoop, h, he, applyPropsCfg_eq]

lemma dscLoop_yml_opt_step (env : CfgEnv) (rest : List String) (port : Nat)
    (cp : List Char) (o : Option String)
    (h : findCfgFile env "application.yml" = Option.map Except.ok o) :
    dscLoop env ("application.yml" :: rest) port cp
      = dscLoop env rest ((o.bind yamlPortOf).getD port) ((o.bind yamlCtxOf).getD cp) := by
  cases o with
  | none => simp [dscLoop, h, Option.map]
  | some c =>
    rw [show Option.map Except.ok (some c) = some (Except.ok c) from rfl] at h
    have he : jsEndsWith ("application.yml" : String).data (chars ".properties")
        = false := by decide
    simp [dscLoop, h, he, applyYamlCfg_eq]

lemma dscLoop_yaml_opt_step (env : CfgEnv) (rest : List String) (port : Nat)
    (cp : List Char) (o : Option String)
    (h : findCfgFile env "application.yaml" = Option.map Except.ok o) :
    dscLoop env ("application.yaml" :: rest) port cp
      = dscLoop env rest ((o.bind yamlPortOf).getD port) ((o.bind yamlCtxOf).getD cp) := by
  cases o with
  | none => simp [dscLoop, h, Option.map]
  | some c =>
    rw [show Option.map Except.ok (some c) = some (Except.ok c) from rfl] at h
    have he : jsEndsWith ("application.yaml" : String).data (chars ".properties")
        = false := by decide
    simp [dscLoop, h, he, applyYamlCfg_eq]

/-- **C6 (amended).**  The *last* matching configuration file wins, for
the port and the context path alike.  Clause 1 characterizes the result
completely for every workspace in which each of the three candidate
files is either absent or readable: the three files are applied in
order, each pattern match overriding the value accumulated so far,
starting from the defaults `(8080, "")` — so a later match always wins
and the defaults survive exactly when nothing matches.  Clauses 2–4
cover a read failure at each position: the failure is swallowed by the
surrounding catch, the remainder of the scan is abandoned, the values
read so far are kept, and a pair is still returned (no exception
escapes). -/
theorem c6_config_resolution_amended :
    (∀ (env : CfgEnv) (o1 o2 o3 : Option String),
      findCfgFile env "application.properties" = Option.map Except.ok o1 →
      findCfgFile env "application.yml" = Option.map Except.ok o2 →
      findCfgFile env "application.yaml" = Option.map Except.ok o3 →
      detectServerConfig env
        = ((o3.bind yamlPortOf).getD ((o2.bind yamlPortOf).getD
              ((o1.bind propsPortOf).getD 8080)),
           ⟨(o3.bind yamlCtxOf).getD ((o2.bind yamlCtxOf).getD
              ((o1.bind propsCtxOf).getD []))⟩)) ∧
    (∀ (env : CfgEnv),
      findCfgFile env "application.properties" = some (.error ()) →
      detectServerConfig env = (8080, "")) ∧
    (∀ (env : CfgEnv) (o1 : Option String),
      findCfgFile env "application.properties" = Option.map Except.ok o1 →
      findCfgFile env "application.yml" = some (.error ()) →
      detectServerConfig env
        = ((o1.bind propsPortOf).getD 8080, ⟨(o1.bind propsCtxOf).getD []⟩)) ∧
    (∀ (env : CfgEnv) (o1 o2 : Option String),
      findCfgFile env "application.properties" = Option.map Except.ok o1 →
      findCfgFile env "application.yml" = Option.map Except.ok o2 →
      findCfgFile env "application.yaml" = some (.error ()) →
      detectServerConfig env
        = ((o2.bind yamlPortOf).getD ((o1.bind propsPortOf).getD 8080),
           ⟨(o2.bind yamlCtxOf).getD ((o1.bind propsCtxOf).getD [])⟩)) := by
  refine ⟨?_, ?_, ?_, ?_⟩
  · intro env o1 o2 o3 h1 h2 h3
    unfold detectServerConfig
    rw [dscLoop_props_opt_step env _ _ _ o1 h1, dscLoop_yml_opt_step env _ _ _ o2 h2,
      dscLoop_yaml_opt_step env _ _ _ o3 h3]
    rfl
  · intro env h1
    unfold detectServerConfig
    rw [dscLoop_err_step env _ _ _ _ h1]
  · intro env o1 h1 h2
    unfold detectServerConfig
    rw [dscLoop_props_opt_step env _ _ _ o1 h1, dscLoop_err_step env _ _ _ _ h2]
  · intro env o1 o2 h1 h2 h3
    unfold detectServerConfig
    rw [dscLoop_props_opt_step env _ _ _ o1 h1, dscLoop_yml_opt_step env _ _ _ o2 h2,
      dscLoop_err_step env _ _ _ _ h3]

/-- **C6 witness.**  Clause 1 applied with all three files present —
the yaml file overrides both the port and the context path read from
the earlier files — and clause 3 applied to a failing yml read, which
keeps the port already read from the properties file. -/
theorem c6_config_resolution_amended_witness :
    detectServerConfig
      [("application.properties", .ok "server.port=9000\nserver.servlet.context-path=/v1"),
       ("application.yml", .ok "server:\n  port: 7000"),
       ("application.yaml",
        .ok "server:\n  port: 6000\nserver:\n  servlet:\n    context-path: /api")]
      = (6000, "/api") ∧
    detectServerConfig
      [("application.properties", .ok "server.port=9000"),
       ("application.yml", .error ())]
      = (9000, "") :=
  ⟨(c6_config_resolution_amended.1
      [("application.properties", .ok "server.port=9000\nserver.servlet.context-path=/v1"),
       ("application.yml", .ok "server:\n  port: 7000"),
       ("application.yaml",
        .ok "server:\n  port: 6000\nserver:\n  servlet:\n    context-path: /api")]
      (some "server.port=9000\nserver.servlet.context-path=/v1")
      (some "server:\n  port: 7000")
      (some "server:\n  port: 6000\nserver:\n  servlet:\n    context-path: /api")
      rfl rfl rfl).trans (by decide),
   (c6_config_resolution_amended.2.2.1
      [("application.properties", .ok "server.port=9000"),
       ("application.yml", .error ())]
      (some "server.port=9000") rfl rfl).trans (by decide)⟩


/-! ### C7: parameter-list splitting -/

lemma commaCount_reverse (l : List Char) : commaCount l.reverse = commaCount l := by
  unfold commaCount
  induction l with
  | nil => rfl
  | cons c t ih => simp [List.countP_cons, List.countP_append, ih]

lemma jsWs_ne_comma (c : Char) (h : jsWs c = true) : (c = ',') = False := by
  simp only [eq_iff_iff, iff_false]
  intro hc
  subst hc
  exact absurd h (by decide)

lemma commaCount_dropWhileWs (l : List Char) :
    commaCount (l.dropWhile jsWs) = commaCount l := by
  induction l with
  | nil => rfl
  | cons c t ih =>
    by_cases h : jsWs c = true
    · rw [List.dropWhile_cons_of_pos h, ih]
      unfold commaCount
      rw [List.countP_cons]
      simp [jsWs_ne_comma c h]
    · rw [List.dropWhile_cons_of_neg h]

lemma commaCount_trim (l : List Char) : commaCount (jsTrim l) = commaCount l := by
  unfold jsTrim
  rw [commaCount_reverse, commaCount_dropWhileWs, commaCount_reverse,
    commaCount_dropWhileWs]

lemma commaCount_append_singleton (l : List Char) (c : Char) :
    commaCount (l ++ [c]) = commaCount l + (if c = ',' then 1 else 0) := by
  unfold commaCount
  simp [List.countP_append, List.countP_cons]

lemma acc_push_sum (acc : List (List Char)) (current : List Char) :
    ((if jsTrim current = [] then acc else acc ++ [jsTrim current]).map commaCount).sum
      = (acc.map commaCount).sum + commaCount current := by
  by_cases h : jsTrim current = []
  · rw [if_pos h]
    have h0 : commaCount current = 0 := by rw [← commaCount_trim, h]; rfl
    omega
  · rw [if_neg h]
    simp [List.map_append, List.sum_append, commaCount_trim]

lemma splitParamsAux_commas : ∀ (s : List Char) pv depth inString current acc,
    ((splitParamsAux s pv depth inString current acc).map commaCount).sum
      = ((acc.map commaCount).sum + commaCount current)
        + specKeptCommas s pv depth inString := by
  intro s
  induction s with
  | nil =>
    intro pv depth inString current acc
    simp only [splitParamsAux, specKeptCommas]
    rw [acc_push_sum]
    omega
  | cons c t ih =>
    intro pv depth inString current acc
    simp only [splitParamsAux, specKeptCommas]
    by_cases h1 : c = '"' ∧ pv ≠ some '\\'
    · rw [if_pos h1, if_pos h1, ih, commaCount_append_singleton]
      have hc : (c = ',') = False := by
        simp only [eq_iff_iff, iff_false]
        intro hcc
        rw [hcc] at h1
        exact absurd h1.1 (by decide)
      simp only [hc, if_false]
      omega
    · rw [if_neg h1, if_neg h1]
      by_cases h2 : inString = true
      · rw [if_pos h2, if_pos h2, ih, commaCount_append_singleton]
        omega
      · rw [if_neg h2, if_neg h2]
        by_cases h3 : c = '<' ∨ c = '('
        · rw [if_pos h3, if_pos h3, ih, commaCount_append_singleton]
          have hc : (c = ',') = False := by
            simp only [eq_iff_iff, iff_false]
            intro hcc
            rw [hcc] at h3
            rcases h3 with h | h <;> exact absurd h (by decide)
          simp only [hc, if_false]
          omega
        · rw [if_neg h3, if_neg h3]
          by_cases h4 : c = '>' ∨ c = ')'
          · rw [if_pos h4, if_pos h4, ih, commaCount_append_singleton]
            have hc : (c = ',') = False := by
              simp only [eq_iff_iff, iff_false]
              intro hcc
              rw [hcc] at h4
              rcases h4 with h | h <;> exact absurd h (by decide)
            simp only [hc, if_false]
            omega
          · rw [if_neg h4, if_neg h4]
            by_cases h5 : c = ',' ∧ depth = 0
            · rw [if_pos h5, if_pos h5, ih, acc_push_sum]
              have : commaCount ([] : List Char) = 0 := rfl
              omega
            · rw [if_neg h5, if_neg h5, ih, commaCount_append_singleton]
              omega

/-- **C7.**  The splitter never splits at a protected comma: joining the
returned tokens loses exactly the separator commas, so the number of
commas surviving inside tokens equals the number of commas that are
inside a string literal or at nonzero bracket depth (the reference
count follows the specification sentence verbatim); and the two
spec examples split into one token per declared parameter, with no
split inside `List<Map<String, Integer>>` or inside a quoted literal
containing a comma. -/
theorem c7_split_parameters_protected_commas :
    (∀ s : String,
      ((splitParameters s).map fun t => commaCount t.data).sum
        = specKeptCommas s.data none 0 false) ∧
    splitParameters "List<Map<String, Integer>> m, String s" =
      ["List<Map<String, Integer>> m", "String s"] ∧
    splitParameters "@RequestParam(defaultValue = \"a,b\") String x, int y" =
      ["@RequestParam(defaultValue = \"a,b\") String x", "int y"] ∧
    splitParameters "String a \"x,y\" b, int y" = ["String a \"x,y\" b", "int y"] := by
  refine ⟨fun s => ?_, by decide, by decide, by decide⟩
  have hmap : (splitParameters s).map (fun t => commaCount t.data)
      = (splitParamsAux s.data none 0 false [] []).map commaCount := by
    unfold splitParameters
    rw [List.map_map]
    rfl
  rw [hmap, splitParamsAux_commas]
  simp [commaCount]


/-! ### C8: unannotated (plain) parameters -/

lemma ppl_plain_get (fuel : Nat) (env : FilesEnv) :
    ∀ (params : List MethodParameter) (st : ProcState) (cache : BodyCache),
      (∀ p ∈ params, p.anno = none) →
      ∃ st', processParamsLoop fuel env "GET" params st cache = (some st', cache) ∧
        st'.url = st.url ∧ st'.body = st.body ∧ st'.headers = st.headers ∧
        st'.queryParams.length
          = min (st.queryParams.length + params.length) (max st.queryParams.length 10) := by
  intro params
  induction params with
  | nil =>
    intro st cache _
    exact ⟨st, rfl, rfl, rfl, rfl, by simp only [List.length_nil]; omega⟩
  | cons p rest ih =>
    intro st cache hall
    have hp : p.anno = none := hall p (List.mem_cons_self p rest)
    have hrest : ∀ q ∈ rest, q.anno = none := fun q hq => hall q (List.mem_cons_of_mem p hq)
    simp only [processParamsLoop, hp]
    have h1 : (none : Option String) = some "@RequestBody" ↔ False := by simp
    have h2 : (none : Option String) = some "@PathVariable" ↔ False := by simp
    have h3 : (none : Option String) = some "@RequestParam" ↔ False := by simp
    have h4 : (none : Option String) = some "@RequestHeader" ↔ False := by simp
    simp only [h1, h2, h3, h4, if_false, iff_false]
    unfold handleDefaultParam
    rw [hp]
    by_cases hlen : st.queryParams.length < 10
    · rw [if_pos ⟨rfl, rfl, hlen⟩]
      obtain ⟨st', heq, hu, hb, hh, hq⟩ := ih _ _ hrest
      refine ⟨st', heq, hu, hb, hh, ?_⟩
      simp at hq
      simp [hq]
      omega
    · rw [if_neg (by simp [hlen])]
      obtain ⟨st', heq, hu, hb, hh, hq⟩ := ih _ _ hrest
      refine ⟨st', heq, hu, hb, hh, ?_⟩
      simp at hq ⊢
      omega

lemma ppl_plain_non_get (fuel : Nat) (env : FilesEnv) (method : String)
    (hm : method ≠ "GET") :
    ∀ (params : List MethodParameter) (st : ProcState) (cache : BodyCache),
      (∀ p ∈ params, p.anno = none) →
      processParamsLoop fuel env method params st cache = (some st, cache) := by
  intro params
  induction params with
  | nil => intro st cache _; rfl
  | cons p rest ih =>
    intro st cache hall
    have hp : p.anno = none := hall p (List.mem_cons_self p rest)
    have hrest : ∀ q ∈ rest, q.anno = none := fun q hq => hall q (List.mem_cons_of_mem p hq)
    simp only [processParamsLoop, hp]
    have h1 : (none : Option String) = some "@RequestBody" ↔ False := by simp
    have h2 : (none : Option String) = some "@PathVariable" ↔ False := by simp
    have h3 : (none : Option String) = some "@RequestParam" ↔ False := by simp
    have h4 : (none : Option String) = some "@RequestHeader" ↔ False := by simp
    simp only [h1, h2, h3, h4, if_false, iff_false]
    unfold handleDefaultParam
    rw [hp, if_neg (by simp [hm])]
    exact ih st cache hrest

/-- **C8.**  A plain (unannotated) parameter contributes a query
parameter exactly under the GET-and-below-cap rule: for a GET route,
`n` unannotated parameters yield `min n 10` accumulated query
parameters (the cap of 10 binds); for any other verb they contribute
nothing at all (URL, body, and headers are untouched); and the claim's
example — a GET `/search` with an unannotated `String query` — yields
the URL `/search?query=sample`. -/
theorem c8_unannotated_get_query_param :
    (∀ (fuel : Nat) (env : FilesEnv) (cache : BodyCache) (params : List MethodParameter)
        (basePath : String),
      (∀ p ∈ params, p.anno = none) →
      ∃ st, (processMethodParameters fuel env cache params basePath "GET").1 = some st ∧
        st.queryParams.length = min params.length 10) ∧
    (∀ (fuel : Nat) (env : FilesEnv) (cache : BodyCache) (params : List MethodParameter)
        (basePath : String) (method : String),
      (∀ p ∈ params, p.anno = none) → method ≠ "GET" →
      (processMethodParameters fuel env cache params basePath method).1
        = some ⟨basePath.data, none, [], []⟩) ∧
    ((processMethodParameters 1 [] [] [⟨none, "String", "query"⟩] "/search" "GET").1.map
      fun st => st.url) = some (chars "/search?query=sample") := by
  refine ⟨?_, ?_, by rfl⟩
  · intro fuel env cache params basePath hall
    obtain ⟨st', heq, _, _, _, hq⟩ :=
      ppl_plain_get fuel env params ⟨basePath.data, none, [], []⟩ cache hall
    unfold processMethodParameters
    rw [heq]
    dsimp only
    by_cases hqs : st'.queryParams ≠ []
    · rw [if_pos hqs]
      refine ⟨_, rfl, ?_⟩
      simp only [List.length_nil, Nat.zero_add] at hq
      simpa using hq
    · rw [if_neg hqs]
      refine ⟨st', rfl, ?_⟩
      simp only [List.length_nil, Nat.zero_add] at hq
      simpa using hq
  · intro fuel env cache params basePath method hall hm
    unfold processMethodParameters
    rw [ppl_plain_non_get fuel env method hm params ⟨basePath.data, none, [], []⟩ cache hall]
    dsimp only
    rw [if_neg (by simp)]

/-- **C8 witness.**  Eleven unannotated parameters on a GET route
accumulate exactly ten query parameters; a POST route accumulates
none. -/
theorem c8_unannotated_get_query_param_witness :
    (∃ st, (processMethodParameters 1 [] []
        (List.replicate 11 ⟨none, "String", "qq"⟩) "/x" "GET").1 = some st ∧
      st.queryParams.length = min (List.replicate 11
        (⟨none, "String", "qq"⟩ : MethodParameter)).length 10) ∧
    (processMethodParameters 1 [] [] [⟨none, "String", "qq"⟩] "/x" "POST").1
      = some ⟨chars "/x", none, [], []⟩ :=
  ⟨c8_unannotated_get_query_param.1 1 [] [] (List.replicate 11 ⟨none, "String", "qq"⟩) "/x"
      (fun p hp => by rw [List.eq_of_mem_replicate hp]),
    c8_unannotated_get_query_param.2.1 1 [] [] [⟨none, "String", "qq"⟩] "/x" "POST"
      (fun p hp => by rw [List.mem_singleton.mp hp]) (by decide)⟩


/-! ### C9: one body entry per extracted field -/

lemma objSetJ_fresh (m : List (String × Jv)) (k : String) (v : Jv)
    (h : ∀ e ∈ m, e.1 ≠ k) :
    objSetJ m k v = m ++ [(k, v)] := by
  unfold objSetJ
  have hany : (m.any fun e => e.1 = k) = false := by
    rw [List.any_eq_false]
    intro e he
    simp [h e he]
  rw [hany]
  simp

lemma bgsb_keys (env : FilesEnv) :
    ∀ (fields : List JavaField) (fuel : Nat) (cache : BodyCache) (visited : List String)
      (body res : List (String × Jv)) (cache' : BodyCache),
      (fields.map JavaField.name).Nodup →
      (∀ f ∈ fields, ∀ e ∈ body, e.1 ≠ f.name) →
      bgGenerateSampleBody fuel env cache visited fields body = (some res, cache') →
      res.map Prod.fst = body.map Prod.fst ++
        (fields.filter fun f =>
          ¬ (visited.contains f.name ∨ visited.length > 10)).map JavaField.name := by
  intro fields
  induction fields with
  | nil =>
    intro fuel cache visited body res cache' _ _ h
    cases fuel with
    | zero => simp [bgGenerateSampleBody] at h
    | succ fuel' =>
      simp only [bgGenerateSampleBody, Prod.mk.injEq] at h
      obtain ⟨h1, -⟩ := h
      injection h1 with h1
      subst h1
      simp
  | cons f rest ih =>
    intro fuel cache visited body res cache' hnd hfresh h
    cases fuel with
    | zero => simp [bgGenerateSampleBody] at h
    | succ fuel' =>
      simp only [bgGenerateSampleBody] at h
      by_cases hskip : visited.contains f.name ∨ visited.length > 10
      · rw [if_pos hskip] at h
        rw [ih fuel' cache visited body res cache'
          (by simpa using (List.nodup_cons.mp (by simpa using hnd)).2)
          (fun q hq => hfresh q (List.mem_cons_of_mem f hq)) h]
        have hskip' : f.name ∈ visited ∨ 10 < visited.length := by simpa using hskip
        rw [List.filter_cons_of_neg (by simpa using fun hn => hskip'.resolve_left hn)]
      · rw [if_neg hskip] at h
        rcases hv : (if f.isCollection then bgGenerateCollectionValue fuel' env cache visited f
                     else bgGenerateFieldValue fuel' env cache visited f) with ⟨vo, c1⟩
        rw [hv] at h
        cases vo with
        | none => simp at h
        | some v =>
          have hffresh : ∀ e ∈ body, e.1 ≠ f.name :=
            hfresh f (List.mem_cons_self f rest)
          have hset : objSetJ body f.name v = body ++ [(f.name, v)] :=
            objSetJ_fresh body f.name v hffresh
          have hnotmem : f.name ∉ rest.map JavaField.name :=
            (List.nodup_cons.mp (by simpa using hnd)).1
          have hfresh' : ∀ q ∈ rest, ∀ e ∈ objSetJ body f.name v, e.1 ≠ q.name := by
            intro q hq e he
            rw [hset] at he
            rcases List.mem_append.mp he with he | he
            · exact hfresh q (List.mem_cons_of_mem f hq) e he
            · have : e = (f.name, v) := by simpa using he
              subst this
              intro hcontra
              have hfq : f.name = q.name := hcontra
              exact hnotmem (hfq ▸ List.mem_map_of_mem JavaField.name hq)
          rw [ih fuel' c1 visited _ res cache'
            (by simpa using (List.nodup_cons.mp (by simpa using hnd)).2) hfresh' h]
          rw [hset]
          rw [List.filter_cons_of_pos (by simpa using hskip)]
          simp

/-- **C9 counterexample.**  A field named exactly like its class is
silently dropped: `generateSampleBody` checks the field *name* against
the visited set, which `generateInternal` seeds with the class name, so
class `Foo` with field `Foo` synthesizes the empty object although the
field was extracted. -/
theorem c9_field_named_like_class_dropped :
    (extractFields "public class Foo \x7b private String Foo; \x7d" "Foo").map
        JavaField.name = ["Foo"] ∧
    bgGenerate 9 envFoo [] "Foo" = (some (some (Jv.obj [])), [("body:Foo", Jv.obj [])]) :=
  ⟨by decide, by rfl⟩

/-- **C9 (amended).**  The synthesized body contains one entry per
extracted field *whose name is not in the visited set* (seeded with the
class name; the cap of 10 also applies), in extraction order; a field
whose value cannot be resolved still appears, with value `null` (second
conjunct: class `Bar` with a field of unresolvable type `Baz` yields
`{"qq": null}` rather than dropping the field). -/
theorem c9_body_entries_amended :
    (∀ (env : FilesEnv) (fields : List JavaField) (fuel : Nat) (cache : BodyCache)
        (visited : List String) (body res : List (String × Jv)) (cache' : BodyCache),
      (fields.map JavaField.name).Nodup →
      (∀ f ∈ fields, ∀ e ∈ body, e.1 ≠ f.name) →
      bgGenerateSampleBody fuel env cache visited fields body = (some res, cache') →
      res.map Prod.fst = body.map Prod.fst ++
        (fields.filter fun f =>
          ¬ (visited.contains f.name ∨ visited.length > 10)).map JavaField.name) ∧
    bgGenerate 9 envBar [] "Bar" =
      (some (some (Jv.obj [("qq", Jv.null)])), [("body:Bar", Jv.obj [("qq", Jv.null)])]) :=
  ⟨fun env fields => bgsb_keys env fields, by rfl⟩

/-- **C9 witness.**  The amended key property instantiated at one
concrete field list. -/
theorem c9_body_entries_amended_witness :
    ([("nm", Jv.str "example")] : List (String × Jv)).map Prod.fst
      = ([] : List (String × Jv)).map Prod.fst ++
        (([⟨"nm", "String", false, none⟩] : List JavaField).filter fun f =>
          ¬ ((["X"] : List String).contains f.name ∨
              (["X"] : List String).length > 10)).map JavaField.name :=
  c9_body_entries_amended.1 [] [⟨"nm", "String", false, none⟩] 3 [] ["X"] []
    [("nm", Jv.str "example")] [] (by decide) (by simp) (by rfl)

/-! ### C10: single-character field names are excluded -/

lemma parseFieldType_name (ft fn : List Char) : (parseFieldType ft fn).name = ⟨fn⟩ := by
  unfold parseFieldType
  by_cases h : isCollectionType ft = true
  · rw [if_pos h]
    cases reExec genericPat ft <;> rfl
  · rw [if_neg h]

lemma processFieldMatches_name_length :
    ∀ (ms : List ExecResult) (fields : List JavaField) (found : List (List Char)),
      (∀ f ∈ fields, 2 ≤ f.name.length) →
      ∀ f ∈ (processFieldMatches ms fields found).1, 2 ≤ f.name.length := by
  intro ms
  induction ms with
  | nil => intro fields found hinv f hf; exact hinv f hf
  | cons m rest ih =>
    intro fields found hinv f hf
    simp only [processFieldMatches] at hf
    by_cases hc : found.contains (jsTrim ((capGet m.caps 2).getD []))
        ∨ isAllUpper (jsTrim ((capGet m.caps 2).getD []))
        ∨ jsIncludes (jsTrim ((capGet m.caps 2).getD [])) (chars "(")
        ∨ (jsTrim ((capGet m.caps 2).getD [])).length < 2
    · rw [if_pos hc] at hf
      exact ih fields found hinv f hf
    · rw [if_neg hc] at hf
      push_neg at hc
      have hnew : ∀ g ∈ fields ++
          [parseFieldType (jsTrim ((capGet m.caps 1).getD []))
            (jsTrim ((capGet m.caps 2).getD []))], 2 ≤ g.name.length := by
        intro g hg
        rcases List.mem_append.mp hg with hg | hg
        · exact hinv g hg
        · have hgs : g = parseFieldType (jsTrim ((capGet m.caps 1).getD []))
              (jsTrim ((capGet m.caps 2).getD [])) := by simpa using hg
          rw [hgs, parseFieldType_name]
          exact hc.2.2.2
      by_cases h20 : (fields ++
          [parseFieldType (jsTrim ((capGet m.caps 1).getD []))
            (jsTrim ((capGet m.caps 2).getD []))]).length ≥ 20
      · rw [if_pos h20] at hf
        exact hnew f hf
      · rw [if_neg h20] at hf
        exact ih _ _ hnew f hf

/-- **C10.**  No field with an identifier shorter than two characters
ever appears in an extraction result: every pushed field passed the
`fieldName.length < 2` skip guard. -/
theorem c10_short_field_names_excluded :
    ∀ (content className : String), ∀ f ∈ extractFields content className,
      2 ≤ f.name.length := by
  intro content className f hf
  unfold extractFields at hf
  dsimp only at hf
  rcases h1 : reExec (classRegex className.data) (cleanJavaContent content.data) with - | cm
  · rw [h1] at hf
    simp at hf
  · rw [h1] at hf
    dsimp only at hf
    rcases h2 : extractClassBody (cleanJavaContent content.data) cm.stop with - | classBody
    · rw [h2] at hf
      simp at hf
    · rw [h2] at hf
      dsimp only at hf
      have main : ∀ (pats : List RE) (acc : List JavaField × List (List Char)),
          (∀ g ∈ acc.1, 2 ≤ g.name.length) →
          ∀ g ∈ (pats.foldl
              (fun acc pat => processFieldMatches (execAll pat classBody) acc.1 acc.2)
              acc).1, 2 ≤ g.name.length := by
        intro pats
        induction pats with
        | nil => intro acc hacc g hg; exact hacc g hg
        | cons p ps ihp =>
          intro acc hacc g hg
          rw [List.foldl_cons] at hg
          refine ihp (processFieldMatches (execAll p classBody) acc.1 acc.2) ?_ g hg
          intro q hq
          exact processFieldMatches_name_length (execAll p classBody) acc.1 acc.2 hacc q hq
      exact main fieldPats ([], []) (by simp) f hf

/-- **C10 witness.**  The guard applied to a concrete two-character
field. -/
theorem c10_short_field_names_excluded_witness :
    2 ≤ ((⟨"id", "String", false, none⟩ : JavaField).name).length :=
  c10_short_field_names_excluded "public class A \x7b private String id; \x7d" "A"
    ⟨"id", "String", false, none⟩ (by decide)


/-! ### C3: header defaults after assembly -/

lemma find_map_overwrite (m : List (String × String)) (k v k' : String) (hk : k' ≠ k) :
    List.find? (fun e => e.1 = k') (m.map fun e => if e.1 = k then (k, v) else e)
      = List.find? (fun e => e.1 = k') m := by
  induction m with
  | nil => rfl
  | cons x xs ih =>
    simp only [List.map_cons]
    by_cases hxk : x.1 = k
    · rw [if_pos hxk]
      have h1 : ¬ (((k, v) : String × String).1 = k') := fun h => hk (by rw [← h])
      have h2 : ¬ (x.1 = k') := fun h => hk (by rw [← h, hxk])
      rw [List.find?_cons_of_neg _ (by simpa using h1), List.find?_cons_of_neg _ (by simpa using h2)]
      exact ih
    · rw [if_neg hxk]
      by_cases hx' : x.1 = k'
      · rw [List.find?_cons_of_pos _ (by simpa using hx'),
          List.find?_cons_of_pos _ (by simpa using hx')]
      · rw [List.find?_cons_of_neg _ (by simpa using hx'),
          List.find?_cons_of_neg _ (by simpa using hx')]
        exact ih

lemma objGet_objSet_self (m : List (String × String)) (k v : String) :
    objGet (objSet m k v) k = some v := by
  unfold objSet objGet
  by_cases h : (m.any fun e => e.1 = k) = true
  · rw [if_pos h]
    induction m with
    | nil => simp at h
    | cons x xs ih =>
      simp only [List.map_cons]
      by_cases hxk : x.1 = k
      · rw [if_pos hxk, List.find?_cons_of_pos _ (by simp)]
        rfl
      · rw [if_neg hxk, List.find?_cons_of_neg _ (by simpa using hxk)]
        exact ih (by simpa [List.any_cons, hxk] using h)
  · rw [if_neg h]
    induction m with
    | nil => simp [List.find?]
    | cons x xs ih =>
      have hxk : ¬ x.1 = k := fun hc => h (by simp [List.any_cons, hc])
      simp only [List.cons_append]
      rw [List.find?_cons_of_neg _ (by simpa using hxk)]
      exact ih fun hc => h (by simp [List.any_cons]; right; simpa using hc)

lemma objGet_objSet_other (m : List (String × String)) (k v k' : String) (hk : k' ≠ k) :
    objGet (objSet m k v) k' = objGet m k' := by
  unfold objSet objGet
  by_cases h : (m.any fun e => e.1 = k) = true
  · rw [if_pos h, find_map_overwrite m k v k' hk]
  · rw [if_neg h, List.find?_append]
    have : List.find? (fun e => e.1 = k') [(k, v)] = none := by
      rw [List.find?_cons_of_neg _ (by simpa using fun hc : k = k' => hk hc.symm)]
      rfl
    rw [this]
    cases List.find? (fun e => e.1 = k') m <;> rfl

lemma hasKey_iff_objGet (m : List (String × String)) (k : String) :
    hasKey m k = (objGet m k).isSome := by
  unfold hasKey objGet
  induction m with
  | nil => rfl
  | cons x xs ih =>
    by_cases hx : x.1 = k
    · rw [List.find?_cons_of_pos _ (by simpa using hx)]
      simp [List.any_cons, hx]
    · rw [List.find?_cons_of_neg _ (by simpa using hx)]
      simpa [List.any_cons, hx] using ih

lemma hasKey_objSet_self (m : List (String × String)) (k v : String) :
    hasKey (objSet m k v) k = true := by
  rw [hasKey_iff_objGet, objGet_objSet_self]
  rfl

lemma hasKey_objSet_mono (m : List (String × String)) (k v k' : String)
    (h : hasKey m k' = true) : hasKey (objSet m k v) k' = true := by
  by_cases hk : k' = k
  · subst hk
    exact hasKey_objSet_self m k' v
  · rw [hasKey_iff_objGet, objGet_objSet_other m k v k' hk, ← hasKey_iff_objGet]
    exact h

lemma assembleFinalHeaders_props (headers : List (String × String)) (bodyPresent : Bool)
    (consumes produces : Option (List String)) :
    hasKey (assembleFinalHeaders headers bodyPresent consumes produces) "Accept" = true ∧
    (bodyPresent = true →
      hasKey (assembleFinalHeaders headers bodyPresent consumes produces) "Content-Type" = true) ∧
    (consumes = none → bodyPresent = true → hasKey headers "Content-Type" = false →
      objGet (assembleFinalHeaders headers bodyPresent consumes produces) "Content-Type"
        = some "application/json") ∧
    (produces = none → hasKey headers "Accept" = false →
      objGet (assembleFinalHeaders headers bodyPresent consumes produces) "Accept"
        = some "application/json") := by
  unfold assembleFinalHeaders
  set fh1 := if bodyPresent = true ∧ ¬ jsTruthyS (objGet headers "Content-Type") = true then
      objSet headers "Content-Type" (firstOrJson consumes) else headers with hfh1
  refine ⟨?_, ?_, ?_, ?_⟩
  · by_cases ha : jsTruthyS (objGet fh1 "Accept") = true
    · rw [if_neg (by simp [ha])]
      unfold jsTruthyS at ha
      rcases hv : objGet fh1 "Accept" with - | v
      · rw [hv] at ha; simp at ha
      · rw [hasKey_iff_objGet, hv]; rfl
    · rw [if_pos (by simpa using ha)]
      exact hasKey_objSet_self fh1 "Accept" (firstOrJson produces)
  · intro hb
    have hct : hasKey fh1 "Content-Type" = true := by
      rw [hfh1]
      by_cases hc : jsTruthyS (objGet headers "Content-Type") = true
      · rw [if_neg (by simp [hb, hc])]
        unfold jsTruthyS at hc
        rcases hv : objGet headers "Content-Type" with - | v
        · rw [hv] at hc; simp at hc
        · rw [hasKey_iff_objGet, hv]; rfl
      · rw [if_pos ⟨hb, by simpa using hc⟩]
        exact hasKey_objSet_self headers "Content-Type" (firstOrJson consumes)
    by_cases ha : jsTruthyS (objGet fh1 "Accept") = true
    · rw [if_neg (by simp [ha])]; exact hct
    · rw [if_pos (by simpa using ha)]
      exact hasKey_objSet_mono fh1 "Accept" (firstOrJson produces) "Content-Type" hct
  · intro hcn hb hnk
    have hng : objGet headers "Content-Type" = none := by
      rw [hasKey_iff_objGet] at hnk
      exact Option.not_isSome_iff_eq_none.mp (by simp [hnk])
    have hfh1eq : fh1 = objSet headers "Content-Type" "application/json" := by
      rw [hfh1, if_pos ⟨hb, by simp [jsTruthyS, hng]⟩, hcn]
      rfl
    have hget : objGet fh1 "Content-Type" = some "application/json" := by
      rw [hfh1eq]; exact objGet_objSet_self headers "Content-Type" "application/json"
    by_cases ha : jsTruthyS (objGet fh1 "Accept") = true
    · rw [if_neg (by simp [ha])]; exact hget
    · rw [if_pos (by simpa using ha)]
      rw [objGet_objSet_other fh1 "Accept" (firstOrJson produces) "Content-Type" (by decide)]
      exact hget
  · intro hpn hnk
    have hacc : objGet fh1 "Accept" = objGet headers "Accept" := by
      rw [hfh1]
      by_cases hc : bodyPresent = true ∧ ¬ jsTruthyS (objGet headers "Content-Type") = true
      · rw [if_pos hc]
        exact objGet_objSet_other headers "Content-Type" (firstOrJson consumes) "Accept"
          (by decide)
      · rw [if_neg hc]
    have hng : objGet headers "Accept" = none := by
      rw [hasKey_iff_objGet] at hnk
      exact Option.not_isSome_iff_eq_none.mp (by simp [hnk])
    rw [if_pos (by simp [jsTruthyS, hacc, hng])]
    rw [objGet_objSet_self, hpn]
    rfl

lemma generateInternal_success (fuel : Nat) (env : FilesEnv) (cfgEnv : CfgEnv)
    (cache : BodyCache) (text fullText : String) (startLine : Nat) (r : IRequest)
    (cache' : BodyCache)
    (h : generateInternal fuel env cfgEnv cache text fullText startLine
      = (some (some r), cache')) :
    ∃ (mapping : SpringMapping) (st : ProcState),
      extractMappingInfo text = some mapping ∧
      r.headers = assembleFinalHeaders st.headers st.body.isSome
        mapping.consumes mapping.produces ∧
      r.body = st.body ∧
      st.url.length ≤ MAX_URL_LENGTH ∧
      (r.url.data = st.url ∨
        r.url.data = ("http://localhost:" ++ toString (detectServerConfig cfgEnv).1
            ++ (detectServerConfig cfgEnv).2).data ++ st.url) := by
  unfold generateInternal at h
  by_cases h0 : jsTrim text.data = [] ∨ text.data.length > 10000
  · rw [if_pos h0] at h
    simp at h
  · rw [if_neg h0] at h
    rcases hm : extractMappingInfo text with - | mapping
    · rw [hm] at h
      simp at h
    · rw [hm] at h
      dsimp only at h
      rcases hmi : extractMethodInfo text with - | nmp
      · rw [hmi] at h
        simp at h
      · rw [hmi] at h
        rcases nmp with ⟨mname, params⟩
        dsimp only at h
        rcases hpp : processMethodParameters fuel env cache params
            (combinePaths ((extractClassMapping fullText startLine).getD "") mapping.path)
            mapping.method with ⟨o, c2⟩
        rw [hpp] at h
        cases o with
        | none => simp at h
        | some st =>
          dsimp only at h
          by_cases hlen : st.url.length > MAX_URL_LENGTH
          · rw [if_pos hlen] at h
            simp at h
          · rw [if_neg hlen] at h
            rcases hdc : detectServerConfig cfgEnv with ⟨port, cp⟩
            rw [hdc] at h
            dsimp only at h
            have h1 := congrArg Prod.fst h
            dsimp only at h1
            injection h1 with h1
            injection h1 with h1
            subst h1
            refine ⟨mapping, st, ?_, ?_, ?_, ?_, ?_⟩
            · rfl
            · rfl
            · rfl
            · omega
            · by_cases hsw : jsStartsWith st.url (chars "http") = true
              · left
                simp [hsw]
              · right
                simp [hsw]

/-- **C3.**  Every produced request descriptor carries an `Accept`
header, and a `Content-Type` header whenever a body is present; at the
assembly step both default to `application/json` when the route
declared no `produces`/`consumes` content types (and no parameter
already supplied the header). -/
theorem c3_headers_accept_and_content_type :
    (∀ (fuel : Nat) (env : FilesEnv) (cfgEnv : CfgEnv) (cache : BodyCache)
        (text fullText : String) (startLine : Nat) (r : IRequest) (cache' : BodyCache),
      generateInternal fuel env cfgEnv cache text fullText startLine
        = (some (some r), cache') →
      hasKey r.headers "Accept" = true ∧
      (r.body.isSome = true → hasKey r.headers "Content-Type" = true)) ∧
    (∀ (headers : List (String × String)) (bodyPresent : Bool)
        (consumes produces : Option (List String)),
      hasKey (assembleFinalHeaders headers bodyPresent consumes produces) "Accept" = true ∧
      (bodyPresent = true →
        hasKey (assembleFinalHeaders headers bodyPresent consumes produces)
          "Content-Type" = true) ∧
      (consumes = none → bodyPresent = true → hasKey headers "Content-Type" = false →
        objGet (assembleFinalHeaders headers bodyPresent consumes produces) "Content-Type"
          = some "application/json") ∧
      (produces = none → hasKey headers "Accept" = false →
        objGet (assembleFinalHeaders headers bodyPresent consumes produces) "Accept"
          = some "application/json")) := by
  constructor
  · intro fuel env cfgEnv cache text fullText startLine r cache' h
    obtain ⟨mapping, st, -, hhead, hbody, -, -⟩ :=
      generateInternal_success fuel env cfgEnv cache text fullText startLine r cache' h
    rw [hhead, hbody]
    exact ⟨(assembleFinalHeaders_props st.headers st.body.isSome
        mapping.consumes mapping.produces).1,
      fun hb => (assembleFinalHeaders_props st.headers st.body.isSome
        mapping.consumes mapping.produces).2.1 hb⟩
  · exact assembleFinalHeaders_props

/-- **C3 witness.**  The descriptor-level clause applied to a concrete
generation with a request body, and the assembly-level defaults applied
to an empty header map. -/
theorem c3_headers_accept_and_content_type_witness :
    (hasKey ((⟨"POST", "http://localhost:8080/a",
        some (Jv.obj [("nm", Jv.str "example")]),
        [("Content-Type", "application/json"),
         ("Accept", "application/json")]⟩ : IRequest)).headers "Accept" = true ∧
      ((⟨"POST", "http://localhost:8080/a", some (Jv.obj [("nm", Jv.str "example")]),
        [("Content-Type", "application/json"),
         ("Accept", "application/json")]⟩ : IRequest).body.isSome = true →
        hasKey ((⟨"POST", "http://localhost:8080/a",
          some (Jv.obj [("nm", Jv.str "example")]),
          [("Content-Type", "application/json"),
           ("Accept", "application/json")]⟩ : IRequest)).headers "Content-Type" = true)) ∧
    objGet (assembleFinalHeaders [] true none none) "Content-Type"
      = some "application/json" ∧
    objGet (assembleFinalHeaders [] false none none) "Accept" = some "application/json" :=
  ⟨c3_headers_accept_and_content_type.1 9 envFooBody [] [] textPostFoo textPostFoo 0
      ⟨"POST", "http://localhost:8080/a", some (Jv.obj [("nm", Jv.str "example")]),
        [("Content-Type", "application/json"), ("Accept", "application/json")]⟩
      [("body:Foo", Jv.obj [("nm", Jv.str "example")])] (by rfl),
    (c3_headers_accept_and_content_type.2 [] true none none).2.2.1 rfl rfl (by rfl),
    (c3_headers_accept_and_content_type.2 [] false none none).2.2.2 rfl (by rfl)⟩


/-! ## Claim C4: the URL length check versus the host prefix

The check `url.length > MAX_URL_LENGTH` runs on the path-plus-query
string, before `http://localhost:port/contextPath` is prepended, so the
returned descriptor can carry a URL longer than the maximum.  The
counterexample drives a 2046-character class-level path through the
class-mapping regex; the lemmas below step the matcher over the long
run symbolically, one pattern atom at a time. -/

lemma firstSome_append {α β : Type} (as bs : List α) (f : α → Option β) :
    firstSome (as ++ bs) f = (firstSome as f).orElse fun _ => firstSome bs f := by
  induction as with
  | nil => cases hb : firstSome bs f <;> simp [firstSome, Option.orElse, hb]
  | cons a rest ih =>
    rw [List.cons_append]
    show (f a).orElse _ = ((f a).orElse _).orElse _
    cases hfa : f a with
    | some v => rfl
    | none =>
      show firstSome (rest ++ bs) f = (firstSome rest f).orElse _
      exact ih

/-- A greedy star over a run of dashes followed by a stopper: when the
continuation succeeds right after the run, the longest consumption is
taken and no backtracking occurs. -/
lemma starRun {β : Type} (p : Char → Bool) (hp : p '-' = true) (q : Char)
    (hq : p q = false) (tail : List Char) (f : Option Char × List Char → Option β)
    (hf : ∀ pv0, (f (pv0, q :: tail)).isSome) :
    ∀ (n : Nat) (pv : Option Char),
      firstSome (starRests p pv (List.replicate n '-' ++ q :: tail)) f
        = f ((if n = 0 then pv else some '-'), q :: tail) := by
  intro n
  induction n with
  | zero =>
    intro pv
    rw [List.replicate, List.nil_append]
    show firstSome (starRests p pv (q :: tail)) f = _
    rw [starRests, if_neg (by simp [hq])]
    obtain ⟨v, hv⟩ := Option.isSome_iff_exists.mp (hf pv)
    simp [firstSome, hv]
  | succ m ih =>
    intro pv
    rw [List.replicate_succ, List.cons_append]
    rw [starRests, if_pos hp]
    rw [firstSome_append, ih (some '-')]
    rw [ite_self]
    obtain ⟨v, hv⟩ := Option.isSome_iff_exists.mp (hf (some '-'))
    rw [hv]
    simp [hv]

/-- Specialization to a nonempty run. -/
lemma starRunS {β : Type} (p : Char → Bool) (hp : p '-' = true) (q : Char)
    (hq : p q = false) (tail : List Char) (f : Option Char × List Char → Option β)
    (hf : ∀ pv0, (f (pv0, q :: tail)).isSome) (n : Nat) (pv : Option Char) :
    firstSome (starRests p pv (List.replicate (n + 1) '-' ++ q :: tail)) f
      = f (some '-', q :: tail) := by
  rw [starRun p hp q hq tail f hf (n + 1) pv]
  simp

/-- Stepping a literal at the head of a sequence. -/
lemma seq_lit_step {α : Type} {l : List Char} {pv : Option Char} {s : List Char}
    {pv2 : Option Char} {s2 : List Char} (h : litStep l pv s = some (pv2, s2))
    (rest : RE) (caps : Caps) (k : Option Char → List Char → Caps → Option α) :
    reM (RE.seq (RE.lit l) rest) pv s caps k = reM rest pv2 s2 caps k := by
  simp [reM, h]

/-- A whitespace star consumes nothing at a non-whitespace character. -/
lemma seq_ws_stop {α : Type} {c : Char} (h : jsWs c = false) (rest : RE)
    (pv : Option Char) (cs : List Char) (caps : Caps)
    (k : Option Char → List Char → Caps → Option α) :
    reM (RE.seq wsStar rest) pv (c :: cs) caps k
      = (reM rest pv (c :: cs) caps k).orElse fun _ => none := by
  simp [reM, wsStar, starRests, h, firstSome]

/-- Stepping the capture group over the long dash path: the greedy
`([^"]+)` consumes the whole run up to the closing quote and captures
exactly the path. -/
lemma seq_grp_plus {α : Type} (n : Nat) (q : Char) (hq : notQuote q = false)
    (tail : List Char) (rest : RE) (pv : Option Char) (caps : Caps)
    (k : Option Char → List Char → Caps → Option α)
    (hsucc : ∀ pv0, (reM rest pv0 (q :: tail)
        ((1, '/' :: List.replicate (n + 1) '-') :: caps) k).isSome) :
    reM (RE.seq (RE.grp 1 (RE.plus notQuote)) rest) pv
        (('/' :: List.replicate (n + 1) '-') ++ q :: tail) caps k
      = reM rest (some '-') (q :: tail)
          ((1, '/' :: List.replicate (n + 1) '-') :: caps) k := by
  rw [List.cons_append]
  simp only [reM]
  rw [if_pos (show notQuote '/' = true by decide)]
  have hcapture :
      ('/' :: (List.replicate (n + 1) '-' ++ q :: tail)).take
        (('/' :: (List.replicate (n + 1) '-' ++ q :: tail)).length - (q :: tail).length)
      = '/' :: List.replicate (n + 1) '-' := by
    have hlen :
        ('/' :: (List.replicate (n + 1) '-' ++ q :: tail)).length - (q :: tail).length
          = (n + 1) + 1 := by
      simp [List.length_cons, List.length_append, List.length_replicate]
      omega
    rw [hlen, List.take_succ_cons]
    congr 1
    exact List.take_left' (by simp)
  have hf : ∀ pv0 : Option Char,
      ((fun pos : Option Char × List Char =>
        reM rest pos.1 pos.2
          ((1, ('/' :: (List.replicate (n + 1) '-' ++ q :: tail)).take
              (('/' :: (List.replicate (n + 1) '-' ++ q :: tail)).length - pos.2.length))
            :: caps) k) (pv0, q :: tail)).isSome := by
    intro pv0
    show (reM rest pv0 (q :: tail) _ k).isSome
    rw [hcapture]
    exact hsucc pv0
  have hstar := starRunS notQuote (by decide) q hq tail
    (fun pos : Option Char × List Char =>
      reM rest pos.1 pos.2
        ((1, ('/' :: (List.replicate (n + 1) '-' ++ q :: tail)).take
            (('/' :: (List.replicate (n + 1) '-' ++ q :: tail)).length - pos.2.length))
          :: caps) k) hf n (some '/')
  rw [hstar]
  show reM rest (some '-') (q :: tail) _ k = _
  rw [hcapture]

/-- The class-level mapping pattern consumes the whole long line and
captures exactly the long path. -/
lemma reM_classMappingPat {α : Type} (k : Option Char → List Char → Caps → Option α)
    (hk : ∀ pv0, (k pv0 [] [(1, classPathL)]).isSome) :
    reM classMappingPat none line0L [] k = k (some ')') [] [(1, classPathL)] := by
  have htower : classMappingPat
      = RE.seq (RE.lit (chars "@RequestMapping")) (RE.seq wsStar (RE.seq (RE.lit (chars "("))
          (RE.seq wsStar (RE.seq (RE.lit (chars "\""))
            (RE.seq (RE.grp 1 (RE.plus notQuote))
              (RE.seq (RE.lit (chars "\""))
                (RE.seq wsStar (RE.seq (RE.lit (chars ")")) RE.eps)))))))) := rfl
  have hpath : ('/' : Char) :: List.replicate (2044 + 1) '-' = classPathL := rfl
  have h1 : litStep (chars "@RequestMapping") none line0L
      = some (some 'g', '(' :: '"' :: (('/' :: List.replicate (2044 + 1) '-') ++ '"' :: [')'])) := rfl
  have h2 : litStep (chars "(") (some 'g')
      ('(' :: '"' :: (('/' :: List.replicate (2044 + 1) '-') ++ '"' :: [')']))
      = some (some '(', '"' :: (('/' :: List.replicate (2044 + 1) '-') ++ '"' :: [')'])) := rfl
  have h3 : litStep (chars "\"") (some '(')
      ('"' :: (('/' :: List.replicate (2044 + 1) '-') ++ '"' :: [')']))
      = some (some '"', ('/' :: List.replicate (2044 + 1) '-') ++ '"' :: [')']) := rfl
  have E5 : ∀ (pv0 : Option Char) (caps0 : Caps),
      reM (RE.seq (RE.lit (chars "\"")) (RE.seq wsStar (RE.seq (RE.lit (chars ")")) RE.eps)))
        pv0 ('"' :: [')']) caps0 k
      = (k (some ')') [] caps0).orElse fun _ => none := fun _ _ => rfl
  rw [htower]
  rw [seq_lit_step h1]
  rw [seq_ws_stop (show jsWs '(' = false by decide)]
  rw [seq_lit_step h2]
  rw [seq_ws_stop (show jsWs '"' = false by decide)]
  rw [seq_lit_step h3]
  rw [seq_grp_plus 2044 '"' (by decide) [')'] _ (some '"') [] k
    (fun pv0 => by
      rw [E5 pv0 _, hpath]
      obtain ⟨v, hv⟩ := Option.isSome_iff_exists.mp (hk (some ')'))
      rw [hv]
      rfl)]
  rw [E5 (some '-') _, hpath]
  obtain ⟨v, hv⟩ := Option.isSome_iff_exists.mp (hk (some ')'))
  rw [hv]
  rfl

/-- Unfolding `reExecAux` at a position where the matcher succeeds. -/
lemma reExecAux_cons_some (r : RE) (pv : Option Char) (c : Char) (rest : List Char)
    (idx len : Nat) (caps : Caps)
    (h : reM r pv (c :: rest) []
        (fun _ s2 caps2 => some ((c :: rest).length - s2.length, caps2)) = some (len, caps)) :
    reExecAux r pv (c :: rest) idx
      = some ⟨idx, idx + len, (c :: rest).take len, caps⟩ := by
  rw [reExecAux, h]

/-- `exec` of the class-mapping pattern on the long line: a match at
position 0 whose group 1 is the long path. -/
lemma reExec_classMappingPat_line0 :
    ∃ b m, reExec classMappingPat line0L = some ⟨0, b, m, [(1, classPathL)]⟩ := by
  have hcons : line0L
      = '@' :: ((chars "RequestMapping(\"" ++ classPathL) ++ chars "\")") := rfl
  have hreM := reM_classMappingPat
    (fun _ s2 caps2 => some
      ((('@' :: ((chars "RequestMapping(\"" ++ classPathL) ++ chars "\")")).length
        - s2.length, caps2)))
    (fun pv0 => rfl)
  rw [hcons] at hreM
  have h2 : reM classMappingPat none
      ('@' :: ((chars "RequestMapping(\"" ++ classPathL) ++ chars "\")")) []
      (fun _ s2 caps2 => some
        ((('@' :: ((chars "RequestMapping(\"" ++ classPathL) ++ chars "\")")).length
          - s2.length, caps2)))
      = some ((('@' :: ((chars "RequestMapping(\"" ++ classPathL) ++ chars "\")")).length
          - ([] : List Char).length), [(1, classPathL)]) := hreM
  have hstep := reExecAux_cons_some classMappingPat none '@'
    ((chars "RequestMapping(\"" ++ classPathL) ++ chars "\")") 0 _ _ h2
  rw [← hcons] at hstep
  exact ⟨_, _, hstep⟩

/-- Splitting on newlines peels off a newline-free first line. -/
lemma splitLines_cons_line (l0 rest : List Char) (h : ∀ c ∈ l0, c ≠ '\n') :
    splitLines (l0 ++ '\n' :: rest) = l0 :: splitLines rest := by
  induction l0 with
  | nil => simp [splitLines]
  | cons c cs ih =>
    have hc : c ≠ '\n' := h c (by simp)
    rw [List.cons_append]
    rw [splitLines, if_neg hc]
    rw [ih (fun x hx => h x (by simp [hx]))]

/-- A needle whose head occurs nowhere in a prefix is found, if at all,
in the remainder. -/
lemma jsIncludes_append_head (h0 : Char) (t xs ys : List Char)
    (hx : ∀ c ∈ xs, c ≠ h0) :
    jsIncludes (xs ++ ys) (h0 :: t) = jsIncludes ys (h0 :: t) := by
  induction xs with
  | nil => rfl
  | cons c cs ih =>
    have hc : c ≠ h0 := hx c (by simp)
    rw [List.cons_append]
    rw [jsIncludes]
    have hsub : isSubseqAt (h0 :: t) (c :: (cs ++ ys)) = false := by
      rw [isSubseqAt]
      simp [Ne.symm hc]
    rw [hsub]
    simp only [Bool.false_eq_true, if_false]
    exact ih (fun x hxx => hx x (by simp [hxx]))

/-- No character of the long mapping line is a newline. -/
lemma line0L_no_newline : ∀ c ∈ line0L, c ≠ '\n' := by
  intro c hc
  have hA : ∀ x ∈ chars "@RequestMapping(\"", x ≠ '\n' := by decide
  have hB : ∀ x ∈ chars "\")", x ≠ '\n' := by decide
  simp only [line0L, classPathL, dashesN, List.mem_append, List.mem_cons,
    List.mem_replicate] at hc
  rcases hc with (h | h | h) | h
  · exact hA c h
  · simp [h]
  · simp [h.2]
  · exact hB c h

/-- The long mapping line does not contain `class `. -/
lemma line0L_no_class : jsIncludes line0L (chars "class ") = false := by
  have hcs : chars "class " = 'c' :: chars "lass " := rfl
  have hx : ∀ c ∈ chars "@RequestMapping(\"" ++ classPathL, c ≠ 'c' := by
    intro c hc
    have hA : ∀ x ∈ chars "@RequestMapping(\"", x ≠ 'c' := by decide
    simp only [classPathL, dashesN, List.mem_append, List.mem_cons,
      List.mem_replicate] at hc
    rcases hc with h | h | h
    · exact hA c h
    · simp [h]
    · simp [h.2]
  have hassoc : line0L = (chars "@RequestMapping(\"" ++ classPathL) ++ chars "\")" := rfl
  rw [hassoc, hcs, jsIncludes_append_head 'c' (chars "lass ") _ _ hx]
  decide

/-- The class-level mapping of the long-path fixture. -/
lemma extractClassMapping_C4 : extractClassMapping fullTextC4 2 = some ⟨classPathL⟩ := by
  have hsplit : splitLines fullTextC4.data = [line0L, line1L, line2L] := by
    have h1 : fullTextC4.data = line0L ++ '\n' :: (line1L ++ '\n' :: line2L) := rfl
    have h2 : splitLines line2L = [line2L] := rfl
    rw [h1, splitLines_cons_line _ _ line0L_no_newline,
      splitLines_cons_line _ _ (by decide : ∀ c ∈ line1L, c ≠ '\n'), h2]
  unfold extractClassMapping
  rw [hsplit]
  dsimp only
  have hidx : (List.range' (2 - 50) (2 + 1 - (2 - 50))).filter
      (fun i => decide (i < ([line0L, line1L, line2L] : List (List Char)).length)) = [0, 1, 2] := rfl
  rw [hidx]
  have hg0 : (([line0L, line1L, line2L] : List (List Char)).getD 0 []) = line0L := rfl
  have hfind : List.find?
      (fun i => jsIncludes (([line0L, line1L, line2L] : List (List Char)).getD i []) (chars "class "))
      [0, 1, 2] = some 1 := by
    rw [List.find?_cons_of_neg _ (by rw [hg0, line0L_no_class]; simp)]
    rw [List.find?_cons_of_pos _ (by decide)]
  rw [hfind]
  dsimp only
  obtain ⟨b, m, hexec⟩ := reExec_classMappingPat_line0
  have hjdx : List.range' (1 - 10) (1 + 1 - (1 - 10)) = [0, 1] := rfl
  rw [hjdx]
  rw [List.findSome?]
  rw [hg0, hexec]
  rfl

/-- Joining the long class path with the method path `/a`. -/
lemma combinePathsL_C4 : combinePathsL classPathL (chars "/a") = fullPathC4 := by
  unfold combinePathsL
  rw [if_neg (by simp [classPathL])]
  rw [if_neg (by decide)]
  have hends : jsEndsWith classPathL ['/'] = false := by
    have hrev : classPathL.reverse = '-' :: (List.replicate 2044 '-' ++ ['/']) := by
      rw [show classPathL = '/' :: List.replicate (2044 + 1) '-' from rfl]
      rw [List.reverse_cons, List.reverse_replicate, List.replicate_succ, List.cons_append]
    rw [jsEndsWith, hrev]
    rfl
  have hstarts : jsStartsWith (chars "/a") ['/'] = true := by decide
  simp only [hends, hstarts, Bool.false_eq_true, if_false, if_true]
  rfl

lemma combinePaths_C4 : combinePaths ⟨classPathL⟩ "/a" = ⟨fullPathC4⟩ :=
  congrArg String.mk combinePathsL_C4

lemma fullPathC4_length : fullPathC4.length = 2048 := by
  have h1 : dashesN.length = 2045 := by rw [dashesN, List.length_replicate]
  rw [fullPathC4, List.length_append, classPathL, List.length_cons, h1]
  rfl

lemma urlC4_length : (⟨urlC4⟩ : String).length = 2069 := by
  show urlC4.length = 2069
  have h21 : (chars "http://localhost:8080").length = 21 := rfl
  rw [urlC4, List.length_append, h21, fullPathC4_length]

/-- **C4 counterexample.**  A route whose combined path is exactly 2048
characters passes the length check, yet the returned descriptor carries
the 2069-character URL obtained after prepending
`http://localhost:8080`: the claimed bound of 2048 on returned URLs is
violated because the check precedes the prefixing. -/
theorem c4_long_url_returned_counterexample :
    generateInternal 1 [] [] [] shortTextC4 fullTextC4 2
      = (some (some ⟨"GET", ⟨urlC4⟩, none, [("Accept", "application/json")]⟩), []) ∧
    (⟨urlC4⟩ : String).length = 2069 ∧ 2069 > MAX_URL_LENGTH := by
  refine ⟨?_, urlC4_length, by decide⟩
  have hcond : ¬ (jsTrim shortTextC4.data = [] ∨ shortTextC4.data.length > 10000) := by decide
  have hmap : extractMappingInfo shortTextC4 = some ⟨"GET", "/a", none, none⟩ := by rfl
  have hmeth : extractMethodInfo shortTextC4 = some ("m", []) := by rfl
  have hppm : processMethodParameters 1 [] [] [] ⟨fullPathC4⟩ "GET"
      = (some ⟨fullPathC4, none, [], []⟩, []) := rfl
  have hlen : ¬ ((⟨fullPathC4, none, [], []⟩ : ProcState).url.length > MAX_URL_LENGTH) := by
    show ¬ (fullPathC4.length > MAX_URL_LENGTH)
    rw [fullPathC4_length]
    decide
  have hdsc : detectServerConfig [] = (8080, "") := rfl
  have hsw : jsStartsWith fullPathC4 (chars "http") = false := rfl
  unfold generateInternal
  rw [if_neg hcond]
  rw [hmap]
  dsimp only
  rw [extractClassMapping_C4]
  rw [hmeth]
  dsimp only [Option.getD]
  rw [combinePaths_C4]
  rw [hppm]
  dsimp only
  rw [if_neg hlen]
  rw [hdsc]
  dsimp only
  rw [if_neg (by simp [hsw])]
  rfl

/-- **C4.**  The bound that does hold: the URL of every returned
descriptor is at most `MAX_URL_LENGTH` plus the length of the
`http://localhost:port/contextPath` prefix determined by the detected
server configuration (the check applies to the pre-prefix URL only). -/
theorem c4_url_length_bound_amended :
    ∀ (fuel : Nat) (env : FilesEnv) (cfgEnv : CfgEnv) (cache : BodyCache)
      (text fullText : String) (startLine : Nat) (r : IRequest) (cache2 : BodyCache),
      generateInternal fuel env cfgEnv cache text fullText startLine
        = (some (some r), cache2) →
      r.url.length ≤ MAX_URL_LENGTH
        + ("http://localhost:" ++ toString (detectServerConfig cfgEnv).1
            ++ (detectServerConfig cfgEnv).2).length := by
  intro fuel env cfgEnv cache text fullText startLine r cache2 h
  obtain ⟨mapping, st, -, -, -, hle, hurl⟩ :=
    generateInternal_success fuel env cfgEnv cache text fullText startLine r cache2 h
  have hstr : r.url.length = r.url.data.length := rfl
  have hpl : ("http://localhost:" ++ toString (detectServerConfig cfgEnv).1
      ++ (detectServerConfig cfgEnv).2).length
      = ("http://localhost:" ++ toString (detectServerConfig cfgEnv).1
        ++ (detectServerConfig cfgEnv).2).data.length := rfl
  rcases hurl with h1 | h1
  · rw [hstr, h1]
    omega
  · rw [hstr, h1, List.length_append, hpl]
    omega

/-- **C4 witness.**  The amended bound applied to a concrete
generation. -/
theorem c4_url_length_bound_amended_witness :
    (⟨"GET", "http://localhost:8080/a", none,
      [("Accept", "application/json")]⟩ : IRequest).url.length
      ≤ MAX_URL_LENGTH
        + ("http://localhost:" ++ toString (detectServerConfig ([] : CfgEnv)).1
            ++ (detectServerConfig ([] : CfgEnv)).2).length :=
  c4_url_length_bound_amended 5 [] [] [] "@GetMapping(\"/a\") public void m()"
    "@GetMapping(\"/a\") public void m()" 0 _ [] (by rfl)
